import Mathlib

/-!
Shallow embedding of `src/WebSocket.cpp` / `src/WebSocket.h` (server-side
WebSocket framing engine) and proofs about it.

Bytes are modelled as `Nat`; at every point where the C++ code relies on a
value fitting in a machine byte (or where it masks bits), the embedding
applies the corresponding `% 256` / `% 16` / `% 128` reduction explicitly,
so all theorems hold for arbitrary naturals and specialise to real bytes.

The transport socket (`QSslSocket`) is modelled by explicit lists:
the readable bytes currently buffered by the socket are an input
`List Nat`; `bytesAvailable()` is its length, `read(n)` takes a prefix,
and writes are collected into an output `List Nat`.
-/

namespace WebSocketSpec

/-- A byte value.  Real socket bytes satisfy `b < 256`; the embedding reduces
mod 256 wherever the C++ code depends on byte width. -/
abbrev Byte := Nat

/-- The `WebSocketState` enum of `WebSocket.h`. -/
inductive WebSocketState
  | None
  | Handshake
  | Open
  | Closed
  | Error
deriving DecidableEq, Repr

/-- The `WebSocketNextAction` enum of `WebSocket.h`. -/
inductive WebSocketNextAction
  | ReadOpcodeAnd1ByteLength
  | Read2ByteLength
  | Read8ByteLength
  | ReadMask
  | ReadPayload
deriving DecidableEq, Repr

/-- The `WebSocketNextPayload` enum of `WebSocket.h`. -/
inductive WebSocketNextPayload
  | Data
  | Ping
  | Pong
deriving DecidableEq, Repr

/-- The decode-relevant member fields of class `WebSocket` (everything except
the output-buffer fields `buffers`, `bytesInBuffers`, `buffersFirstConsumed`,
which the decoder only appends to and never reads; they are grouped
separately in `WS`). -/
structure Core where
  wsState : WebSocketState
  webSocketAccept : Option (List Byte)
  mask : List Byte
  maskIndex : Nat
  nextAction : WebSocketNextAction
  nextLength : Nat
  nextPayload : WebSocketNextPayload
deriving DecidableEq, Repr

/-- The full member state of class `WebSocket`: decode core plus the output
buffer (`buffers`, `bytesInBuffers`, `buffersFirstConsumed`). -/
structure WS where
  core : Core
  buffers : List (List Byte)
  bytesInBuffers : Nat
  buffersFirstConsumed : Nat
deriving DecidableEq, Repr

/-- Bytes of an ASCII string, as used for the literal `QByteArray` constants. -/
def strBytes (s : String) : List Byte := s.toList.map Char.toNat

/-- The constant `WebSocket::magicSequence`. -/
def magicSequence : List Byte := strBytes "258EAFA5-E914-47DA-95CA-C5AB0DC85B11"

/-- The constant `WebSocket::serverHeader`. -/
def serverHeader : List Byte :=
  strBytes "HTTP/1.1 101 Switching Protocols" ++ [13, 10]
    ++ strBytes "Upgrade: websocket" ++ [13, 10]
    ++ strBytes "Connection: Upgrade" ++ [13, 10]
    ++ strBytes "Sec-WebSocket-Accept: "

/-- The constant `WebSocket::msgHeader = 0b10000010` (fin bit + binary opcode). -/
def msgHeader : Byte := 130

/-- The constant `WebSocket::pongHeader = 0x0A | 0b10000000`. -/
def pongHeader : Byte := 138

/-- One step of the rolling mask index: `maskIndex++; if (maskIndex == 4) maskIndex = 0;`. -/
def maskStep (i : Nat) : Nat := if i + 1 = 4 then 0 else i + 1

/-- `WebSocket::unmask`: XOR each byte with `mask[maskIndex]`, advancing the
rolling index.  Returns the transformed bytes together with the final value of
the `maskIndex` member. -/
def unmask (mask : List Byte) : Nat → List Byte → List Byte × Nat
  | i, [] => ([], i)
  | i, b :: rest =>
    let r := unmask mask (maskStep i) rest
    ((b ^^^ mask.getD i 0) :: r.1, r.2)

/-- Big-endian byte decomposition: `beBytes k n` is the `k`-byte big-endian
encoding of `n` (mod `256^k`), as produced by `qToBigEndian`. -/
def beBytes : Nat → Nat → List Byte
  | 0, _ => []
  | k + 1, n => beBytes k (n / 256) ++ [n % 256]

/-- `WebSocket::writeLength`: the length header bytes written for an outgoing
frame.  Note the C++ boundary check is `length <= 65536` (inclusive) and the
16-bit branch truncates via `quint16 length16 = length`. -/
def writeLength (length : Nat) : List Byte :=
  if length ≤ 125 then [length]
  else if length ≤ 65536 then 126 :: beBytes 2 length
  else 127 :: beBytes 8 length

/-- The minimal-size length encoding asserted by the specification, stated
from the spec's words for comparison with the code's `writeLength`: the
single byte for lengths up to 125, the 2-byte-extended form for lengths
representable in 16 bits, the 8-byte-extended form beyond. -/
def minimalLength (length : Nat) : List Byte :=
  if length ≤ 125 then [length]
  else if length < 65536 then 126 :: beBytes 2 length
  else 127 :: beBytes 8 length

/-- `WebSocket::write`: the bytes written to the socket by an outgoing binary
message.  A no-op (nothing written) unless the state is Open; the member state
itself is never changed by `write`. -/
def write (c : Core) (qbaMsg : List Byte) : List Byte :=
  if c.wsState = WebSocketState.Open then
    msgHeader :: (writeLength qbaMsg.length ++ qbaMsg)
  else []

/-- Result of one iteration of the `while (true)` loop body of
`WebSocket::socketReadOpen`: `go = true` means the loop continues (the C++
`break` out of the switch or `continue`), `go = false` means the function
returned.  `leftover` is the unread part of the socket input, `written` the
bytes written to the socket, `emitted` the chunks appended to `buffers`. -/
structure StepResult where
  go : Bool
  core : Core
  leftover : List Byte
  written : List Byte
  emitted : List (List Byte)
deriving DecidableEq, Repr

/-- The tail of the `ReadOpcodeAnd1ByteLength` case after the opcode has been
classified (for non-close frames): the mask-bit check and the 7-bit length
code dispatch of `WebSocket::socketReadOpen` lines 120-143.  `c` already has
`nextPayload` assigned; `b1` is the second header byte, `rest` the remaining
input. -/
def headerLength (c : Core) (b1 : Byte) (rest : List Byte) : StepResult :=
  if b1 % 256 < 128 then
    -- mask bit not set: protocol violation
    ⟨false, { c with wsState := WebSocketState.Error }, rest, [], []⟩
  else
    -- headerBuffer[1] &= 0b01111111
    if b1 % 128 ≤ 125 then
      ⟨true,
        { c with nextLength := b1 % 128, nextAction := WebSocketNextAction.ReadMask },
        rest, [], []⟩
    else if b1 % 128 = 126 then
      ⟨true, { c with nextAction := WebSocketNextAction.Read2ByteLength }, rest, [], []⟩
    else if b1 % 128 = 127 then
      ⟨true, { c with nextAction := WebSocketNextAction.Read8ByteLength }, rest, [], []⟩
    else
      -- dead branch in the C++ ("should never reach this"): b1 % 128 ≤ 127 always
      ⟨false, { c with wsState := WebSocketState.Error }, rest, [], []⟩

/-- One iteration of the loop body of `WebSocket::socketReadOpen`, dispatching
on `nextAction` exactly as the C++ `switch` does. -/
def socketStep (c : Core) (input : List Byte) : StepResult :=
  match c.nextAction with
  | WebSocketNextAction.ReadOpcodeAnd1ByteLength =>
    match input with
    | b0 :: b1 :: rest =>
      -- headerBuffer[0] &= 0b00001111
      if b0 % 16 ≤ 2 then
        headerLength { c with nextPayload := WebSocketNextPayload.Data } b1 rest
      else if b0 % 16 = 8 then
        -- close frame: echo a close frame (fin bit | opcode 8, zero length) and close
        ⟨false, { c with wsState := WebSocketState.Closed }, rest, [136, 0], []⟩
      else if b0 % 16 = 9 then
        headerLength { c with nextPayload := WebSocketNextPayload.Ping } b1 rest
      else if b0 % 16 = 10 then
        headerLength { c with nextPayload := WebSocketNextPayload.Pong } b1 rest
      else
        ⟨false, { c with wsState := WebSocketState.Error }, rest, [], []⟩
    | _ => ⟨false, c, input, [], []⟩
  | WebSocketNextAction.Read2ByteLength =>
    match input with
    | l0 :: l1 :: rest =>
      ⟨true,
        { c with nextLength := 256 * (l0 % 256) + l1 % 256, nextAction := WebSocketNextAction.ReadMask },
        rest, [], []⟩
    | _ => ⟨false, c, input, [], []⟩
  | WebSocketNextAction.Read8ByteLength =>
    match input with
    | l0 :: l1 :: l2 :: l3 :: l4 :: l5 :: l6 :: l7 :: rest =>
      ⟨true,
        { c with
            nextLength :=
              (((((((l0 % 256) * 256 + l1 % 256) * 256 + l2 % 256) * 256
                + l3 % 256) * 256 + l4 % 256) * 256 + l5 % 256) * 256
                + l6 % 256) * 256 + l7 % 256,
            nextAction := WebSocketNextAction.ReadMask },
        rest, [], []⟩
    | _ => ⟨false, c, input, [], []⟩
  | WebSocketNextAction.ReadMask =>
    match input with
    | m0 :: m1 :: m2 :: m3 :: rest =>
      ⟨true,
        { c with mask := [m0, m1, m2, m3], maskIndex := 0, nextAction := WebSocketNextAction.ReadPayload },
        rest, [], []⟩
    | _ => ⟨false, c, input, [], []⟩
  | WebSocketNextAction.ReadPayload =>
    match c.nextPayload with
    | WebSocketNextPayload.Pong =>
      if c.nextLength ≤ input.length then
        ⟨true, { c with nextAction := WebSocketNextAction.ReadOpcodeAnd1ByteLength },
         input.drop c.nextLength, [], []⟩
      else
        ⟨false, c, input, [], []⟩
    | WebSocketNextPayload.Ping =>
      if c.nextLength ≤ input.length then
        ⟨true,
          { c with
              maskIndex := (unmask c.mask c.maskIndex (input.take c.nextLength)).2,
              nextAction := WebSocketNextAction.ReadOpcodeAnd1ByteLength },
          input.drop c.nextLength,
          pongHeader
            :: (writeLength (unmask c.mask c.maskIndex (input.take c.nextLength)).1.length
              ++ (unmask c.mask c.maskIndex (input.take c.nextLength)).1), []⟩
      else
        ⟨false, c, input, [], []⟩
    | WebSocketNextPayload.Data =>
      if c.nextLength = 0 then
        ⟨true, { c with nextAction := WebSocketNextAction.ReadOpcodeAnd1ByteLength },
         input, [], []⟩
      else if input.length = 0 then
        ⟨false, c, input, [], []⟩
      else
        ⟨true,
          { c with
              nextLength := c.nextLength - min c.nextLength input.length,
              maskIndex :=
                (unmask c.mask c.maskIndex (input.take (min c.nextLength input.length))).2 },
          input.drop (min c.nextLength input.length), [],
          [(unmask c.mask c.maskIndex (input.take (min c.nextLength input.length))).1]⟩

/-- Measure helper for the loop of `socketReadOpen`: the only loop iteration
that consumes no input bytes transitions out of `ReadPayload`. -/
def payloadWeight : WebSocketNextAction → Nat
  | WebSocketNextAction.ReadPayload => 1
  | _ => 0

/-- Result of a whole `socketReadOpen` (or `socketRead`) invocation at the
core level. -/
structure OpenResult where
  core : Core
  leftover : List Byte
  written : List Byte
  emitted : List (List Byte)
deriving DecidableEq, Repr

/-- `WebSocket::socketReadOpen`: iterate `socketStep` until an iteration
returns (`go = false`), concatenating written bytes and emitted chunks. -/
def socketReadOpen (c : Core) (input : List Byte) : OpenResult :=
  if h : (socketStep c input).go = true then
    let r := socketReadOpen (socketStep c input).core (socketStep c input).leftover
    ⟨r.core, r.leftover, (socketStep c input).written ++ r.written,
      (socketStep c input).emitted ++ r.emitted⟩
  else
    ⟨(socketStep c input).core, (socketStep c input).leftover,
      (socketStep c input).written, (socketStep c input).emitted⟩
termination_by 2 * input.length + payloadWeight c.nextAction
decreasing_by
  rcases hs : socketStep c input with ⟨go, c2, left, w, e⟩
  rw [hs] at h
  subst h
  dsimp only
  unfold socketStep headerLength at hs
  rcases hc : c.nextAction <;> rw [hc] at hs <;> dsimp only at hs <;>
    (repeat' split at hs) <;>
    (injection hs with h1 h2 h3 h4 h5) <;>
    first
      | exact Bool.noConfusion h1
      | (subst h2; subst h3;
         simp_all only [payloadWeight, List.length_cons, List.length_drop]; omega)

/-! ### SHA-1 and base64

`socketReadHandshake` calls the external library routines
`QCryptographicHash::hash(..., Sha1)` and `QByteArray::toBase64()`.
These are modelled here by the standard SHA-1 algorithm (FIPS 180) and
standard base64 encoding, which is what those routines compute. -/

/-- Left-rotation of a 32-bit word. -/
def rotl32 (n x : Nat) : Nat := ((x <<< n) ||| (x >>> (32 - n))) % 4294967296

/-- SHA-1 message padding: append `0x80`, zeros to 56 mod 64, then the
64-bit big-endian bit length. -/
def sha1Pad (msg : List Byte) : List Byte :=
  msg ++ [128] ++ List.replicate ((119 - msg.length % 64) % 64) 0
    ++ beBytes 8 (8 * msg.length)

/-- Split a byte list into 64-byte blocks (fuelled: each step removes 64
bytes, so `l.length` steps always suffice and the fuel never runs out on a
non-empty list). -/
def toBlocksF : Nat → List Byte → List (List Byte)
  | 0, _ => []
  | fuel + 1, l => if l = [] then [] else l.take 64 :: toBlocksF fuel (l.drop 64)

/-- Split a byte list into 64-byte blocks. -/
def toBlocks (l : List Byte) : List (List Byte) := toBlocksF l.length l

/-- Group bytes into big-endian 32-bit words. -/
def toWords : List Byte → List Nat
  | b0 :: b1 :: b2 :: b3 :: rest =>
    ((b0 % 256) * 16777216 + (b1 % 256) * 65536 + (b2 % 256) * 256 + b3 % 256)
      :: toWords rest
  | _ => []

/-- Extend the 16 message words of a block by `k` further schedule words. -/
def sha1Extend : Nat → List Nat → List Nat
  | 0, w => w
  | k + 1, w =>
    sha1Extend k
      (w ++ [rotl32 1 (((w.getD (w.length - 3) 0) ^^^ (w.getD (w.length - 8) 0))
        ^^^ ((w.getD (w.length - 14) 0) ^^^ (w.getD (w.length - 16) 0)))])

/-- The SHA-1 round function. -/
def sha1F (t b c d : Nat) : Nat :=
  if t < 20 then (b &&& c) ||| ((b ^^^ 4294967295) &&& d)
  else if t < 40 then (b ^^^ c) ^^^ d
  else if t < 60 then ((b &&& c) ||| (b &&& d)) ||| (c &&& d)
  else (b ^^^ c) ^^^ d

/-- The SHA-1 round constants. -/
def sha1K (t : Nat) : Nat :=
  if t < 20 then 1518500249
  else if t < 40 then 1859775393
  else if t < 60 then 2400959708
  else 3395469782

/-- `k` SHA-1 compression rounds starting at round index `t`. -/
def sha1RoundsF (w : List Nat) : Nat → Nat → Nat × Nat × Nat × Nat × Nat → Nat × Nat × Nat × Nat × Nat
  | 0, _, s => s
  | k + 1, t, (a, b, c, d, e) =>
    sha1RoundsF w k (t + 1)
      ((rotl32 5 a + sha1F t b c d + e + sha1K t + w.getD t 0) % 4294967296,
        a, rotl32 30 b, c, d)

/-- The 80 SHA-1 compression rounds. -/
def sha1Rounds (w : List Nat) (s : Nat × Nat × Nat × Nat × Nat) :
    Nat × Nat × Nat × Nat × Nat :=
  sha1RoundsF w 80 0 s

/-- Process one 64-byte block, updating the five hash words. -/
def sha1Block (h : List Nat) (block : List Byte) : List Nat :=
  let w := sha1Extend 64 (toWords block)
  let r := sha1Rounds w (h.getD 0 0, h.getD 1 0, h.getD 2 0, h.getD 3 0, h.getD 4 0)
  [(h.getD 0 0 + r.1) % 4294967296,
   (h.getD 1 0 + r.2.1) % 4294967296,
   (h.getD 2 0 + r.2.2.1) % 4294967296,
   (h.getD 3 0 + r.2.2.2.1) % 4294967296,
   (h.getD 4 0 + r.2.2.2.2) % 4294967296]

/-- Fold the block compression over all blocks. -/
def sha1Core (h : List Nat) : List (List Byte) → List Nat
  | [] => h
  | blk :: rest => sha1Core (sha1Block h blk) rest

/-- SHA-1 digest (20 bytes) of a byte sequence; models
`QCryptographicHash::hash(data, Sha1)`. -/
def sha1 (msg : List Byte) : List Byte :=
  (sha1Core [1732584193, 4023233417, 2562383102, 271733878, 3285377520]
    (toBlocks (sha1Pad msg))).flatMap (beBytes 4)

/-- The base64 alphabet: `A`-`Z`, `a`-`z`, `0`-`9`, `+`, `/`. -/
def base64Char (n : Nat) : Byte :=
  if n < 26 then 65 + n
  else if n < 52 then 97 + (n - 26)
  else if n < 62 then 48 + (n - 52)
  else if n = 62 then 43
  else 47

/-- Standard base64 encoding with `=` padding; models `QByteArray::toBase64()`. -/
def base64 : List Byte → List Byte
  | b0 :: b1 :: b2 :: rest =>
    base64Char (b0 % 256 / 4)
      :: base64Char ((b0 % 4) * 16 + b1 % 256 / 16)
      :: base64Char ((b1 % 16) * 4 + b2 % 256 / 64)
      :: base64Char (b2 % 64)
      :: base64 rest
  | [b0, b1] =>
    [base64Char (b0 % 256 / 4), base64Char ((b0 % 4) * 16 + b1 % 256 / 16),
     base64Char ((b1 % 16) * 4), 61]
  | [b0] =>
    [base64Char (b0 % 256 / 4), base64Char ((b0 % 4) * 16), 61, 61]
  | [] => []

/-! ### Handshake -/

/-- ASCII lower-casing of one byte, for the case-insensitive
`line.startsWith("Sec-WebSocket-Key:", Qt::CaseInsensitive)` test.
The header name is plain ASCII, so ASCII folding models Qt's folding here. -/
def lowerByte (b : Byte) : Byte := if 65 ≤ b % 256 ∧ b % 256 ≤ 90 then b % 256 + 32 else b % 256

/-- The 18 bytes of `"Sec-WebSocket-Key:"`, lower-cased. -/
def secKeyHeader : List Byte := strBytes "sec-websocket-key:"

/-- Whether a line starts (case-insensitively) with `Sec-WebSocket-Key:`. -/
def startsWithSecKey (line : List Byte) : Bool :=
  (line.take 18).map lowerByte = secKeyHeader

/-- Whitespace as recognised by `QString::trimmed` (ASCII range). -/
def isSpaceByte (b : Byte) : Bool := b % 256 = 32 ∨ (9 ≤ b % 256 ∧ b % 256 ≤ 13)

/-- `QString::trimmed`: strip leading and trailing whitespace. -/
def trimBytes (l : List Byte) : List Byte :=
  ((l.dropWhile isSpaceByte).reverse.dropWhile isSpaceByte).reverse

/-- Whether the socket buffer holds a complete line (`QIODevice::canReadLine`:
a newline byte is present). -/
def hasLine (input : List Byte) : Bool := input.contains 10

/-- `QIODevice::readLine`: the first line, up to and including the newline
byte, and the remaining buffered bytes.  Only invoked when `hasLine`. -/
def takeLine (input : List Byte) : List Byte × List Byte :=
  (input.takeWhile (fun b => b ≠ 10) ++ [10], (input.dropWhile (fun b => b ≠ 10)).drop 1)

/-- One-per-line iteration of `WebSocket::socketReadHandshake`, with a fuel
parameter standing for the `while (canReadLine())` loop: on a
`Sec-WebSocket-Key:` line, check the raw length and store the accept token;
on the blank `\r\n` line, write the response and go to Open (or Error if no
key was seen); otherwise skip the line. -/
def socketReadHandshakeF : Nat → Core → List Byte → Core × List Byte × List Byte
  | 0, c, input => (c, input, [])
  | fuel + 1, c, input =>
    if hasLine input = true then
      let line := (takeLine input).1
      let rest := (takeLine input).2
      if startsWithSecKey line then
        -- restLength = line.length() - 18 must be at least 24 + 2
        if line.length - 18 < 26 then
          ({ c with wsState := WebSocketState.Error }, rest, [])
        else
          let keyOnly := trimBytes (line.drop 18)
          socketReadHandshakeF fuel
            { c with webSocketAccept := some (base64 (sha1 (keyOnly ++ magicSequence))) }
            rest
      else if line = [13, 10] then
        match c.webSocketAccept with
        | none => ({ c with wsState := WebSocketState.Error }, rest, [])
        | some acc =>
          ({ c with wsState := WebSocketState.Open }, rest,
            serverHeader ++ acc ++ [13, 10] ++ [13, 10])
      else
        socketReadHandshakeF fuel c rest
    else
      (c, input, [])

/-- `WebSocket::socketReadHandshake`.  Fuel `input.length` makes the fuelled
loop exact: every iteration of the C++ `while (canReadLine())` loop consumes
a complete line, hence at least one buffered byte, so after `input.length`
iterations no complete line can remain and the loop must have exited. -/
def socketReadHandshake (c : Core) (input : List Byte) : Core × List Byte × List Byte :=
  socketReadHandshakeF input.length c input

/-! ### The connection dispatcher and the output buffer -/

/-- Result of a `socketRead` invocation: the new member state, the bytes left
unread in the socket buffer, and the bytes written to the socket. -/
structure ReadResult where
  ws : WS
  leftover : List Byte
  written : List Byte
deriving DecidableEq, Repr

/-- `WebSocket::socketRead`: dispatch on the connection state.  `None`
becomes `Handshake`; in `Handshake` the handshake scanner runs; if the state
is (or becomes) `Open`, the frame decoder runs.  Decoded chunks are appended
to `buffers` and `bytesInBuffers` is increased accordingly. -/
def socketRead (w : WS) (input : List Byte) : ReadResult :=
  let c0 := if w.core.wsState = WebSocketState.None
    then { w.core with wsState := WebSocketState.Handshake } else w.core
  let h := if c0.wsState = WebSocketState.Handshake
    then socketReadHandshake c0 input else (c0, input, [])
  if h.1.wsState = WebSocketState.Open then
    let r := socketReadOpen h.1 h.2.1
    ⟨{ core := r.core,
       buffers := w.buffers ++ r.emitted,
       bytesInBuffers := w.bytesInBuffers + (r.emitted.map List.length).sum,
       buffersFirstConsumed := w.buffersFirstConsumed },
      r.leftover, h.2.2 ++ r.written⟩
  else
    ⟨{ w with core := h.1 }, h.2.1, h.2.2⟩

/-- One fuelled unfolding of the drain loop of `WebSocket::read(char*, qint64)`:
every iteration either removes a fully consumed head chunk or copies at least
one byte (decreasing `maxLen`), so `w.buffers.length + maxLen` iterations
always suffice, and when the fuel runs out the loop condition is false. -/
def readF : Nat → WS → Nat → WS × List Byte
  | 0, w, _ => (w, [])
  | fuel + 1, w, maxLen =>
    match w.buffers with
    | [] => (w, [])
    | hd :: t =>
      if hd.length - w.buffersFirstConsumed = 0 then
        readF fuel { w with buffers := t, buffersFirstConsumed := 0 } maxLen
      else if maxLen = 0 then
        (w, [])
      else
        let readStep := min (hd.length - w.buffersFirstConsumed) maxLen
        let r := readF fuel
          { w with
              buffersFirstConsumed := w.buffersFirstConsumed + readStep,
              bytesInBuffers := w.bytesInBuffers - readStep }
          (maxLen - readStep)
        (r.1, (hd.drop w.buffersFirstConsumed).take readStep ++ r.2)

/-- `WebSocket::read(char*, qint64)`: drain up to `maxLen` bytes from the
front of the output buffer, respecting the partial offset into the head
chunk and removing fully consumed head chunks.  Returns the new state and
the bytes copied out. -/
def read (w : WS) (maxLen : Nat) : WS × List Byte :=
  readF (w.buffers.length + maxLen) w maxLen

/-- `WebSocket::read(qint64)`: allocate `min maxLen bytesInBuffers` zero
bytes and overwrite the copied prefix (under the buffer invariant the whole
array is overwritten). -/
def readByteArray (w : WS) (maxLen : Nat) : WS × List Byte :=
  let target := min maxLen w.bytesInBuffers
  let r := read w target
  (r.1, r.2 ++ List.replicate (target - r.2.length) 0)

/-- `WebSocket::bytesAvailable`. -/
def bytesAvailable (w : WS) : Nat := w.bytesInBuffers

/-- The member state of a freshly constructed connection, before any bytes
are processed (state `None`, empty output buffer, counters zero). -/
def WS.init : WS :=
  { core :=
      { wsState := WebSocketState.None, webSocketAccept := none,
        mask := [0, 0, 0, 0], maskIndex := 0,
        nextAction := WebSocketNextAction.ReadOpcodeAnd1ByteLength,
        nextLength := 0, nextPayload := WebSocketNextPayload.Data },
    buffers := [], bytesInBuffers := 0, buffersFirstConsumed := 0 }

/-- The unread contents of the output buffer: the head chunk past the
consumed offset, then all later chunks. -/
def unreadBytes (w : WS) : List Byte :=
  match w.buffers with
  | [] => []
  | hd :: t => hd.drop w.buffersFirstConsumed ++ t.flatten

/-- The output-buffer invariant: `bytesInBuffers` counts the unread bytes and
the consumed offset never exceeds the head chunk. -/
def BufInv (w : WS) : Prop :=
  w.bytesInBuffers = (unreadBytes w).length ∧
  w.buffersFirstConsumed ≤ (w.buffers.headD []).length

/-- Number of input bytes the current decode step requires before it
consumes anything (for `Data`, one byte suffices to make progress). -/
def stepNeeds (c : Core) : Nat :=
  match c.nextAction with
  | WebSocketNextAction.ReadOpcodeAnd1ByteLength => 2
  | WebSocketNextAction.Read2ByteLength => 2
  | WebSocketNextAction.Read8ByteLength => 8
  | WebSocketNextAction.ReadMask => 4
  | WebSocketNextAction.ReadPayload =>
    match c.nextPayload with
    | WebSocketNextPayload.Pong => c.nextLength
    | WebSocketNextPayload.Ping => c.nextLength
    | WebSocketNextPayload.Data => if c.nextLength = 0 then 0 else 1

/-- Feed a sequence of chunks through successive `socketRead` invocations:
bytes not yet consumed stay buffered by the socket, so each invocation sees
the previous leftover with the new chunk appended.  Returns the final state,
the final leftover, and all bytes written. -/
def feedChunks (w : WS) (pending : List Byte) : List (List Byte) → ReadResult
  | [] => ⟨w, pending, []⟩
  | ch :: rest =>
    let r := socketRead w (pending ++ ch)
    let r2 := feedChunks r.ws r.leftover rest
    ⟨r2.ws, r2.leftover, r.written ++ r2.written⟩

/-- Repeated partial reads: perform `read` once per entry of `lens`, returning
the final state and the list of returned byte chunks. -/
def readSeq (w : WS) : List Nat → WS × List (List Byte)
  | [] => (w, [])
  | n :: rest =>
    let r := read w n
    let r2 := readSeq r.1 rest
    (r2.1, r.2 :: r2.2)

/-- The public operations of class `WebSocket` that can touch its state. -/
inductive WSOp
  | sockRead (input : List Byte)
  | msgWrite (qbaMsg : List Byte)
  | bufRead (maxLen : Nat)

/-- Run one public operation (`socketRead`, `write`, `read`); `write` never
mutates the member state. -/
def runOp (w : WS) : WSOp → WS
  | WSOp.sockRead input => (socketRead w input).ws
  | WSOp.msgWrite _ => w
  | WSOp.bufRead maxLen => (read w maxLen).1

/-- Run a sequence of public operations. -/
def runOps (w : WS) : List WSOp → WS
  | [] => w
  | op :: rest => runOps (runOp w op) rest

/-- Rank of a connection state along the forward chain
`None → Handshake → Open → {Closed, Error}`. -/
def stateRank : WebSocketState → Nat
  | WebSocketState.None => 0
  | WebSocketState.Handshake => 1
  | WebSocketState.Open => 2
  | WebSocketState.Closed => 3
  | WebSocketState.Error => 3

/-- The frame decoder as guarded by the dispatcher `socketRead`: it only runs
while the state is Open (otherwise the socket input stays buffered untouched). -/
def openGuard (c : Core) (input : List Byte) : OpenResult :=
  if c.wsState = WebSocketState.Open then socketReadOpen c input
  else ⟨c, input, [], []⟩

/-- A freshly opened connection (handshake finished, no frame in progress). -/
def openWS : WS :=
  { WS.init with core := { WS.init.core with wsState := WebSocketState.Open } }

/-- The masked single-frame binary message carrying "Hello"
(`81 85 37 FA 21 3D 7F 9F 4D 51 58`). -/
def helloFrame : List Byte :=
  [0x81, 0x85, 0x37, 0xFA, 0x21, 0x3D, 0x7F, 0x9F, 0x4D, 0x51, 0x58]

/-- A partition of `helloFrame` into four chunks. -/
def helloChunks : List (List Byte) :=
  [[0x81], [0x85, 0x37], [0xFA, 0x21, 0x3D, 0x7F, 0x9F], [0x4D, 0x51, 0x58]]

/-- The core of a connection in the middle of the handshake. -/
def hsCore : Core := { WS.init.core with wsState := WebSocketState.Handshake }

/-- The RFC 6455 sample key header line, without its final newline byte. -/
def sampleKeyPre : List Byte :=
  strBytes "Sec-WebSocket-Key: dGhlIHNhbXBsZSBub25jZQ==" ++ [13]

/-- The RFC 6455 sample key header line. -/
def sampleKeyLine : List Byte :=
  strBytes "Sec-WebSocket-Key: dGhlIHNhbXBsZSBub25jZQ==" ++ [13, 10]

/-- A key header line whose trimmed value has 30 characters (not 24). -/
def longKeyPre : List Byte :=
  strBytes "Sec-WebSocket-Key: " ++ List.replicate 30 65 ++ [13]

/-- A key header line whose raw length is below the checked minimum. -/
def shortKeyPre : List Byte := strBytes "Sec-WebSocket-Key: AB" ++ [13]

/-- An Open connection that has decoded a Ping header with payload length 3
and mask key `01 02 03 04`, about to read the ping payload. -/
def pingWS : WS :=
  { openWS with core :=
      { openWS.core with
          nextAction := WebSocketNextAction.ReadPayload,
          nextPayload := WebSocketNextPayload.Ping,
          nextLength := 3, mask := [1, 2, 3, 4], maskIndex := 0 } }

/-- An Open connection that has decoded a Ping header with payload length
65536 (arrived through the 8-byte extended length) and mask key `00 00 00 00`,
about to read the ping payload. -/
def pingWS65536 : WS :=
  { openWS with core :=
      { openWS.core with
          nextAction := WebSocketNextAction.ReadPayload,
          nextPayload := WebSocketNextPayload.Ping,
          nextLength := 65536, mask := [0, 0, 0, 0], maskIndex := 0 } }

/-- An Open connection whose OutputBuffer holds two decoded chunks (five
unread bytes in total). -/
def bufWS : WS :=
  { openWS with buffers := [[1, 2, 3], [4, 5]], bytesInBuffers := 5, buffersFirstConsumed := 0 }

/-! ## Helper lemmas -/

theorem unmask_fst_length (m : List Byte) (i : Nat) (d : List Byte) :
    (unmask m i d).1.length = d.length := by
  induction d generalizing i with
  | nil => rfl
  | cons b rest ih => simp [unmask, ih]

theorem unmask_append (m : List Byte) (i : Nat) (a b : List Byte) :
    unmask m i (a ++ b)
      = ((unmask m i a).1 ++ (unmask m (unmask m i a).2 b).1,
         (unmask m (unmask m i a).2 b).2) := by
  induction a generalizing i with
  | nil => rfl
  | cons c rest ih => simp [unmask, ih]

theorem unmask_unmask (m : List Byte) (i : Nat) (d : List Byte) :
    (unmask m i (unmask m i d).1).1 = d := by
  induction d generalizing i with
  | nil => rfl
  | cons b rest ih =>
    simp [unmask, ih, Nat.xor_assoc]

theorem unmask_snd_mod (m : List Byte) (i : Nat) (d : List Byte) (hi : i < 4) :
    (unmask m i d).2 = (i + d.length) % 4 := by
  induction d generalizing i with
  | nil => simp [unmask, Nat.mod_eq_of_lt hi]
  | cons b rest ih =>
    have hstep : maskStep i = (i + 1) % 4 := by
      by_cases h4 : i + 1 = 4
      · simp [maskStep, h4]
      · simp only [maskStep, h4, if_false]
        omega
    have hlt : maskStep i < 4 := by rw [hstep]; exact Nat.mod_lt _ (by omega)
    simp only [unmask, List.length_cons]
    rw [ih (maskStep i) hlt, hstep]
    omega

theorem socketStep_suspend (c : Core) (input : List Byte)
    (h : input.length < stepNeeds c) :
    socketStep c input = ⟨false, c, input, [], []⟩ := by
  cases hna : c.nextAction
  case ReadOpcodeAnd1ByteLength =>
    simp only [stepNeeds, hna] at h
    rcases input with _ | ⟨b0, _ | ⟨b1, rest⟩⟩
    · simp [socketStep, hna]
    · simp [socketStep, hna]
    · simp only [List.length_cons, List.length_nil] at h; omega
  case Read2ByteLength =>
    simp only [stepNeeds, hna] at h
    rcases input with _ | ⟨b0, _ | ⟨b1, rest⟩⟩
    · simp [socketStep, hna]
    · simp [socketStep, hna]
    · simp only [List.length_cons, List.length_nil] at h; omega
  case Read8ByteLength =>
    simp only [stepNeeds, hna] at h
    rcases input with _ | ⟨a1, _ | ⟨a2, _ | ⟨a3, _ | ⟨a4, _ | ⟨a5, _ | ⟨a6, _ | ⟨a7, _ | ⟨a8, rest⟩⟩⟩⟩⟩⟩⟩⟩ <;>
      first
        | (exfalso; simp only [List.length_cons, List.length_nil] at h; omega)
        | simp [socketStep, hna]
  case ReadMask =>
    simp only [stepNeeds, hna] at h
    rcases input with _ | ⟨a1, _ | ⟨a2, _ | ⟨a3, _ | ⟨a4, rest⟩⟩⟩⟩ <;>
      first
        | (exfalso; simp only [List.length_cons, List.length_nil] at h; omega)
        | simp [socketStep, hna]
  case ReadPayload =>
    cases hnp : c.nextPayload
    case Pong =>
      simp only [stepNeeds, hna, hnp] at h
      simp [socketStep, hna, hnp, Nat.not_le.mpr h]
    case Ping =>
      simp only [stepNeeds, hna, hnp] at h
      simp [socketStep, hna, hnp, Nat.not_le.mpr h]
    case Data =>
      simp only [stepNeeds, hna, hnp] at h
      by_cases h0 : c.nextLength = 0
      · rw [if_pos h0] at h; omega
      · rw [if_neg h0] at h
        have hnil : input = [] := List.length_eq_zero.mp (by omega)
        subst hnil
        simp [socketStep, hna, hnp, h0]

theorem socketStep_append (c : Core) (input x : List Byte)
    (hlen : stepNeeds c ≤ input.length)
    (hdata : c.nextAction = WebSocketNextAction.ReadPayload →
      c.nextPayload = WebSocketNextPayload.Data → c.nextLength ≤ input.length) :
    socketStep c (input ++ x)
      = { socketStep c input with leftover := (socketStep c input).leftover ++ x } := by
  cases hna : c.nextAction
  case ReadOpcodeAnd1ByteLength =>
    simp only [stepNeeds, hna] at hlen
    rcases input with _ | ⟨b0, _ | ⟨b1, rest⟩⟩
    · simp only [List.length_nil] at hlen; omega
    · simp only [List.length_cons, List.length_nil] at hlen; omega
    · simp only [socketStep, headerLength, hna, List.cons_append]
      repeat' split
      all_goals rfl
  case Read2ByteLength =>
    simp only [stepNeeds, hna] at hlen
    rcases input with _ | ⟨b0, _ | ⟨b1, rest⟩⟩
    · simp only [List.length_nil] at hlen; omega
    · simp only [List.length_cons, List.length_nil] at hlen; omega
    · simp only [socketStep, hna, List.cons_append]
  case Read8ByteLength =>
    simp only [stepNeeds, hna] at hlen
    rcases input with _ | ⟨a1, _ | ⟨a2, _ | ⟨a3, _ | ⟨a4, _ | ⟨a5, _ | ⟨a6, _ | ⟨a7, _ | ⟨a8, rest⟩⟩⟩⟩⟩⟩⟩⟩ <;>
      first
        | (simp only [List.length_cons, List.length_nil] at hlen; omega)
        | simp only [socketStep, hna, List.cons_append]
  case ReadMask =>
    simp only [stepNeeds, hna] at hlen
    rcases input with _ | ⟨a1, _ | ⟨a2, _ | ⟨a3, _ | ⟨a4, rest⟩⟩⟩⟩ <;>
      first
        | (simp only [List.length_cons, List.length_nil] at hlen; omega)
        | simp only [socketStep, hna, List.cons_append]
  case ReadPayload =>
    cases hnp : c.nextPayload
    case Pong =>
      simp only [stepNeeds, hna, hnp] at hlen
      have hlen2 : c.nextLength ≤ (input ++ x).length := by
        simp only [List.length_append]; omega
      simp only [socketStep, hna, hnp, if_pos hlen, if_pos hlen2,
        List.drop_append_of_le_length hlen]
    case Ping =>
      simp only [stepNeeds, hna, hnp] at hlen
      have hlen2 : c.nextLength ≤ (input ++ x).length := by
        simp only [List.length_append]; omega
      simp only [socketStep, hna, hnp, if_pos hlen, if_pos hlen2,
        List.drop_append_of_le_length hlen, List.take_append_of_le_length hlen]
    case Data =>
      have hnl := hdata hna hnp
      by_cases h0 : c.nextLength = 0
      · simp [socketStep, hna, hnp, h0]
      · have hpos : input.length ≠ 0 := by omega
        have hpos2 : (input ++ x).length ≠ 0 := by
          simp only [List.length_append]; omega
        have hmin : min c.nextLength (input ++ x).length = min c.nextLength input.length := by
          simp only [List.length_append]; omega
        have hminle : min c.nextLength input.length ≤ input.length := Nat.min_le_right _ _
        simp only [socketStep, hna, hnp, if_neg h0, if_neg hpos, if_neg hpos2, hmin,
          List.drop_append_of_le_length hminle, List.take_append_of_le_length hminle]

theorem socketStep_data (c : Core) (input : List Byte)
    (hna : c.nextAction = WebSocketNextAction.ReadPayload)
    (hnp : c.nextPayload = WebSocketNextPayload.Data)
    (h0 : c.nextLength ≠ 0) (hne : input.length ≠ 0) :
    socketStep c input
      = ⟨true,
          { c with
              nextLength := c.nextLength - min c.nextLength input.length,
              maskIndex :=
                (unmask c.mask c.maskIndex (input.take (min c.nextLength input.length))).2 },
          input.drop (min c.nextLength input.length), [],
          [(unmask c.mask c.maskIndex (input.take (min c.nextLength input.length))).1]⟩ := by
  simp [socketStep, hna, hnp, h0, hne]

theorem socketStep_go_wsState (c : Core) (input : List Byte)
    (h : (socketStep c input).go = true) :
    (socketStep c input).core.wsState = c.wsState := by
  rcases hs : socketStep c input with ⟨go, c2, left, w, e⟩
  rw [hs] at h
  subst h
  dsimp only
  unfold socketStep headerLength at hs
  rcases hna : c.nextAction <;> rw [hna] at hs <;> dsimp only at hs <;>
    (repeat' split at hs) <;>
    (injection hs with h1 h2 h3 h4 h5) <;>
    first
      | exact Bool.noConfusion h1
      | (subst h2; rfl)

theorem socketStep_stop_cases (c : Core) (input : List Byte)
    (h : (socketStep c input).go = false) :
    socketStep c input = ⟨false, c, input, [], []⟩ ∨
      (socketStep c input).core.wsState = WebSocketState.Closed ∨
      (socketStep c input).core.wsState = WebSocketState.Error := by
  rcases hs : socketStep c input with ⟨go, c2, left, w, e⟩
  rw [hs] at h
  subst h
  dsimp only
  unfold socketStep headerLength at hs
  rcases hna : c.nextAction <;> rw [hna] at hs <;> dsimp only at hs <;>
    (repeat' split at hs) <;>
    (injection hs with h1 h2 h3 h4 h5) <;>
    first
      | exact Bool.noConfusion h1
      | (subst h2; subst h3; subst h4; subst h5; first
          | exact Or.inl rfl
          | exact Or.inr (Or.inl rfl)
          | exact Or.inr (Or.inr rfl))

theorem socketStep_measure (c : Core) (input : List Byte)
    (h : (socketStep c input).go = true) :
    2 * (socketStep c input).leftover.length
        + payloadWeight (socketStep c input).core.nextAction
      < 2 * input.length + payloadWeight c.nextAction := by
  rcases hs : socketStep c input with ⟨go, c2, left, w, e⟩
  rw [hs] at h
  subst h
  dsimp only
  unfold socketStep headerLength at hs
  rcases hna : c.nextAction <;> rw [hna] at hs <;> dsimp only at hs <;>
    (repeat' split at hs) <;>
    (injection hs with h1 h2 h3 h4 h5) <;>
    first
      | exact Bool.noConfusion h1
      | (subst h2; subst h3;
         simp_all only [payloadWeight, List.length_cons, List.length_drop]; omega)

theorem socketReadOpen_stop (c : Core) (input : List Byte)
    (h : (socketStep c input).go = false) :
    socketReadOpen c input
      = ⟨(socketStep c input).core, (socketStep c input).leftover,
         (socketStep c input).written, (socketStep c input).emitted⟩ := by
  rw [socketReadOpen]
  simp [h]

theorem socketReadOpen_go (c : Core) (input : List Byte)
    (h : (socketStep c input).go = true) :
    socketReadOpen c input
      = ⟨(socketReadOpen (socketStep c input).core (socketStep c input).leftover).core,
         (socketReadOpen (socketStep c input).core (socketStep c input).leftover).leftover,
         (socketStep c input).written
           ++ (socketReadOpen (socketStep c input).core (socketStep c input).leftover).written,
         (socketStep c input).emitted
           ++ (socketReadOpen (socketStep c input).core (socketStep c input).leftover).emitted⟩ := by
  rw [socketReadOpen]
  simp [h]

theorem socketReadOpen_wsState (c : Core) (input : List Byte) :
    (socketReadOpen c input).core.wsState = c.wsState ∨
    (socketReadOpen c input).core.wsState = WebSocketState.Closed ∨
    (socketReadOpen c input).core.wsState = WebSocketState.Error := by
  have H : ∀ (n : Nat) (c : Core) (input : List Byte),
      2 * input.length + payloadWeight c.nextAction ≤ n →
      (socketReadOpen c input).core.wsState = c.wsState ∨
      (socketReadOpen c input).core.wsState = WebSocketState.Closed ∨
      (socketReadOpen c input).core.wsState = WebSocketState.Error := by
    intro n
    induction n using Nat.strong_induction_on with
    | _ n ih =>
      intro c input hle
      by_cases hgo : (socketStep c input).go = true
      · rw [socketReadOpen_go c input hgo]
        have hm := socketStep_measure c input hgo
        have hws := socketStep_go_wsState c input hgo
        rcases ih (2 * (socketStep c input).leftover.length
            + payloadWeight (socketStep c input).core.nextAction)
            (by omega) (socketStep c input).core (socketStep c input).leftover le_rfl with
          h1 | h2 | h3
        · exact Or.inl (h1.trans hws)
        · exact Or.inr (Or.inl h2)
        · exact Or.inr (Or.inr h3)
      · have hgo' : (socketStep c input).go = false := by simpa using hgo
        rw [socketReadOpen_stop c input hgo']
        rcases socketStep_stop_cases c input hgo' with hid | hcl | herr
        · rw [hid]; exact Or.inl rfl
        · exact Or.inr (Or.inl hcl)
        · exact Or.inr (Or.inr herr)
  exact H _ c input le_rfl

theorem socketReadOpen_quiescent (c : Core) (input : List Byte)
    (hopen : c.wsState = WebSocketState.Open)
    (hafter : (socketReadOpen c input).core.wsState = WebSocketState.Open) :
    socketStep (socketReadOpen c input).core (socketReadOpen c input).leftover
      = ⟨false, (socketReadOpen c input).core, (socketReadOpen c input).leftover, [], []⟩ := by
  have H : ∀ (n : Nat) (c : Core) (input : List Byte),
      2 * input.length + payloadWeight c.nextAction ≤ n →
      c.wsState = WebSocketState.Open →
      (socketReadOpen c input).core.wsState = WebSocketState.Open →
      socketStep (socketReadOpen c input).core (socketReadOpen c input).leftover
        = ⟨false, (socketReadOpen c input).core, (socketReadOpen c input).leftover, [], []⟩ := by
    intro n
    induction n using Nat.strong_induction_on with
    | _ n ih =>
      intro c input hle hopen hafter
      by_cases hgo : (socketStep c input).go = true
      · rw [socketReadOpen_go c input hgo] at hafter ⊢
        have hm := socketStep_measure c input hgo
        have hws := socketStep_go_wsState c input hgo
        exact ih (2 * (socketStep c input).leftover.length
            + payloadWeight (socketStep c input).core.nextAction)
          (by omega) (socketStep c input).core (socketStep c input).leftover le_rfl
          (hws.trans hopen) hafter
      · have hgo' : (socketStep c input).go = false := by simpa using hgo
        rcases socketStep_stop_cases c input hgo' with hid | hcl | herr
        · simp [socketReadOpen_stop c input hgo', hid]
        · simp only [socketReadOpen_stop c input hgo'] at hafter
          rw [hcl] at hafter
          exact WebSocketState.noConfusion hafter
        · simp only [socketReadOpen_stop c input hgo'] at hafter
          rw [herr] at hafter
          exact WebSocketState.noConfusion hafter
  exact H _ c input le_rfl hopen hafter

theorem openGuard_open (c : Core) (input : List Byte)
    (h : c.wsState = WebSocketState.Open) :
    openGuard c input = socketReadOpen c input := by
  simp [openGuard, h]

theorem openGuard_not_open (c : Core) (input : List Byte)
    (h : c.wsState ≠ WebSocketState.Open) :
    openGuard c input = ⟨c, input, [], []⟩ := by
  simp [openGuard, h]

/-- Composition of the guarded decoder over an input split: processing
`b ++ x` in one invocation equals processing `b`, then the leftover with `x`
appended, with written bytes concatenated and the same emitted payload bytes
(possibly chunked differently). -/
theorem openGuard_append (c : Core) (b x : List Byte) :
    (openGuard c (b ++ x)).core
        = (openGuard (openGuard c b).core ((openGuard c b).leftover ++ x)).core ∧
    (openGuard c (b ++ x)).leftover
        = (openGuard (openGuard c b).core ((openGuard c b).leftover ++ x)).leftover ∧
    (openGuard c (b ++ x)).written
        = (openGuard c b).written
            ++ (openGuard (openGuard c b).core ((openGuard c b).leftover ++ x)).written ∧
    (openGuard c (b ++ x)).emitted.flatten
        = (openGuard c b).emitted.flatten
            ++ (openGuard (openGuard c b).core ((openGuard c b).leftover ++ x)).emitted.flatten := by
  have H : ∀ (n : Nat) (c : Core) (b : List Byte),
      2 * b.length + payloadWeight c.nextAction ≤ n →
      (openGuard c (b ++ x)).core
          = (openGuard (openGuard c b).core ((openGuard c b).leftover ++ x)).core ∧
      (openGuard c (b ++ x)).leftover
          = (openGuard (openGuard c b).core ((openGuard c b).leftover ++ x)).leftover ∧
      (openGuard c (b ++ x)).written
          = (openGuard c b).written
              ++ (openGuard (openGuard c b).core ((openGuard c b).leftover ++ x)).written ∧
      (openGuard c (b ++ x)).emitted.flatten
          = (openGuard c b).emitted.flatten
              ++ (openGuard (openGuard c b).core ((openGuard c b).leftover ++ x)).emitted.flatten := by
    intro n
    induction n using Nat.strong_induction_on with
    | _ n ih =>
      intro c b hle
      by_cases hopen : c.wsState = WebSocketState.Open
      case neg =>
        simp [openGuard_not_open c _ hopen]
      case pos =>
        rw [openGuard_open c (b ++ x) hopen, openGuard_open c b hopen]
        by_cases hgo : (socketStep c b).go = true
        · have hns : stepNeeds c ≤ b.length := by
            by_contra hlt
            rw [socketStep_suspend c b (by omega)] at hgo
            exact Bool.noConfusion hgo
          have hm := socketStep_measure c b hgo
          have hws := socketStep_go_wsState c b hgo
          have hopen2 : (socketStep c b).core.wsState = WebSocketState.Open := by
            rw [hws, hopen]
          by_cases hdd : c.nextAction = WebSocketNextAction.ReadPayload ∧
              c.nextPayload = WebSocketNextPayload.Data ∧ b.length < c.nextLength
          · -- a partial Data read: the single invocation reads one larger chunk
            -- where the split invocations read two smaller ones
            obtain ⟨hna, hnp, hblt⟩ := hdd
            have h0 : c.nextLength ≠ 0 := by omega
            have hsn1 : stepNeeds c = 1 := by simp [stepNeeds, hna, hnp, h0]
            have hbne : b.length ≠ 0 := by omega
            have hminb : min c.nextLength b.length = b.length := by omega
            have hdb := socketStep_data c b hna hnp h0 hbne
            rw [hminb, List.take_length, List.drop_length] at hdb
            rw [socketReadOpen_go c b hgo]
            rw [hdb]
            dsimp only
            -- the recursion after consuming all of b suspends on empty input
            have hrest : c.nextLength - b.length ≠ 0 := by omega
            have hsus : socketStep
                { c with nextLength := c.nextLength - b.length, maskIndex := (unmask c.mask c.maskIndex b).2 }
                ([] : List Byte) =
                ⟨false,
                  { c with nextLength := c.nextLength - b.length, maskIndex := (unmask c.mask c.maskIndex b).2 },
                  [], [], []⟩ := by
              apply socketStep_suspend
              simp only [stepNeeds, List.length_nil]
              rw [show ({ c with nextLength := c.nextLength - b.length, maskIndex := (unmask c.mask c.maskIndex b).2 } : Core).nextAction
                  = c.nextAction from rfl, hna]
              rw [show ({ c with nextLength := c.nextLength - b.length, maskIndex := (unmask c.mask c.maskIndex b).2 } : Core).nextPayload
                  = c.nextPayload from rfl, hnp]
              dsimp only
              rw [if_neg hrest]
              omega
            rw [socketReadOpen_stop
              { c with nextLength := c.nextLength - b.length, maskIndex := (unmask c.mask c.maskIndex b).2 }
              [] (by rw [hsus])]
            rw [hsus]
            dsimp only
            rw [openGuard_open
              { c with nextLength := c.nextLength - b.length, maskIndex := (unmask c.mask c.maskIndex b).2 }
              ([] ++ x) (by exact hopen)]
            rw [List.nil_append]
            rcases x with _ | ⟨x0, xs⟩
            · -- nothing appended: the second invocation suspends at once
              rw [List.append_nil]
              rw [socketReadOpen_go c b hgo, hdb]
              dsimp only
              rw [socketReadOpen_stop
                { c with nextLength := c.nextLength - b.length, maskIndex := (unmask c.mask c.maskIndex b).2 }
                [] (by rw [hsus])]
              rw [hsus]
              simp
            · -- bytes appended: both sides take one Data step and then agree
              have hxne : (x0 :: xs).length ≠ 0 := by simp
              have hbxne : (b ++ x0 :: xs).length ≠ 0 := by simp
              have hdbx := socketStep_data c (b ++ x0 :: xs) hna hnp h0 hbxne
              have hm2 : min c.nextLength (b ++ x0 :: xs).length
                  = b.length + min (c.nextLength - b.length) (x0 :: xs).length := by
                simp only [List.length_append]
                omega
              have htke : (b ++ x0 :: xs).take
                    (b.length + min (c.nextLength - b.length) (x0 :: xs).length)
                  = b ++ (x0 :: xs).take (min (c.nextLength - b.length) (x0 :: xs).length) := by
                rw [List.take_append_eq_append_take]
                rw [List.take_all_of_le (by omega)]
                congr 2
                omega
              have hdrp : (b ++ x0 :: xs).drop
                    (b.length + min (c.nextLength - b.length) (x0 :: xs).length)
                  = (x0 :: xs).drop (min (c.nextLength - b.length) (x0 :: xs).length) := by
                rw [List.drop_append_eq_append_drop]
                rw [List.drop_eq_nil_of_le (by omega)]
                rw [List.nil_append]
                congr 1
                omega
              rw [hm2, htke, hdrp, unmask_append] at hdbx
              dsimp only at hdbx
              have hdx := socketStep_data
                { c with nextLength := c.nextLength - b.length, maskIndex := (unmask c.mask c.maskIndex b).2 }
                (x0 :: xs) hna hnp hrest hxne
              dsimp only at hdx
              have hgox : (socketStep c (b ++ x0 :: xs)).go = true := by rw [hdbx]
              have hgox2 : (socketStep
                  { c with nextLength := c.nextLength - b.length, maskIndex := (unmask c.mask c.maskIndex b).2 }
                  (x0 :: xs)).go = true := by rw [hdx]
              rw [socketReadOpen_go c (b ++ x0 :: xs) hgox,
                socketReadOpen_go
                  { c with nextLength := c.nextLength - b.length, maskIndex := (unmask c.mask c.maskIndex b).2 }
                  (x0 :: xs) hgox2,
                hdbx, hdx]
              dsimp only
              have harith : c.nextLength
                    - (b.length + min (c.nextLength - b.length) (x0 :: xs).length)
                  = c.nextLength - b.length
                    - min (c.nextLength - b.length) (x0 :: xs).length := by omega
              rw [harith]
              simp
          · -- deterministic step: both invocations take the same first step
            have hdata : c.nextAction = WebSocketNextAction.ReadPayload →
                c.nextPayload = WebSocketNextPayload.Data → c.nextLength ≤ b.length := by
              intro h1 h2
              by_contra h3
              exact hdd ⟨h1, h2, by omega⟩
            have happ := socketStep_append c b x hns hdata
            have hgo2 : (socketStep c (b ++ x)).go = true := by
              rw [happ]; exact hgo
            rw [socketReadOpen_go c (b ++ x) hgo2, socketReadOpen_go c b hgo, happ]
            dsimp only
            have ihh := ih (2 * (socketStep c b).leftover.length
                + payloadWeight (socketStep c b).core.nextAction) (by omega)
              (socketStep c b).core (socketStep c b).leftover le_rfl
            rw [openGuard_open (socketStep c b).core ((socketStep c b).leftover ++ x) hopen2,
              openGuard_open (socketStep c b).core (socketStep c b).leftover hopen2] at ihh
            obtain ⟨ih1, ih2, ih3, ih4⟩ := ihh
            refine ⟨?_, ?_, ?_, ?_⟩
            · rw [ih1]
            · rw [ih2]
            · rw [ih3, List.append_assoc]
            · rw [List.flatten_append, List.flatten_append, ih4, List.append_assoc]
        · have hgo2 : (socketStep c b).go = false := by simpa using hgo
          rcases socketStep_stop_cases c b hgo2 with hid | hterm
          · -- suspended without consuming: the split run just retries with more bytes
            rw [socketReadOpen_stop c b hgo2, hid]
            dsimp only
            rw [openGuard_open c (b ++ x) hopen]
            simp
          · -- the invocation ended in Closed or Error: nothing further runs
            have hns : stepNeeds c ≤ b.length := by
              by_contra hlt
              rw [socketStep_suspend c b (by omega)] at hterm
              dsimp only at hterm
              rcases hterm with h1 | h1 <;> rw [hopen] at h1 <;>
                exact WebSocketState.noConfusion h1
            have hdata : c.nextAction = WebSocketNextAction.ReadPayload →
                c.nextPayload = WebSocketNextPayload.Data →
                c.nextLength ≤ b.length := by
              intro h1 h2
              by_contra h3
              have hbne : b.length ≠ 0 := by
                have hs1 : stepNeeds c = 1 := by
                  simp only [stepNeeds]
                  rw [h1]
                  dsimp only
                  rw [h2]
                  dsimp only
                  rw [if_neg (by omega)]
                omega
              rw [socketStep_data c b h1 h2 (by omega) hbne] at hgo2
              exact Bool.noConfusion hgo2
            have happ := socketStep_append c b x hns hdata
            have hgo3 : (socketStep c (b ++ x)).go = false := by
              rw [happ]; exact hgo2
            rw [socketReadOpen_stop c (b ++ x) hgo3, socketReadOpen_stop c b hgo2, happ]
            dsimp only
            have hno : (socketStep c b).core.wsState ≠ WebSocketState.Open := by
              rcases hterm with h1 | h1 <;> rw [h1] <;> simp
            rw [openGuard_not_open (socketStep c b).core
              ((socketStep c b).leftover ++ x) hno]
            simp
  exact H (2 * b.length + payloadWeight c.nextAction) c b le_rfl

theorem socketRead_open_eq (w : WS) (input : List Byte)
    (hopen : w.core.wsState = WebSocketState.Open) :
    socketRead w input
      = ⟨⟨(socketReadOpen w.core input).core,
          w.buffers ++ (socketReadOpen w.core input).emitted,
          w.bytesInBuffers + ((socketReadOpen w.core input).emitted.map List.length).sum,
          w.buffersFirstConsumed⟩,
        (socketReadOpen w.core input).leftover,
        (socketReadOpen w.core input).written⟩ := by
  simp [socketRead, hopen]

theorem socketRead_terminal (w : WS) (input : List Byte)
    (h : w.core.wsState = WebSocketState.Closed ∨ w.core.wsState = WebSocketState.Error) :
    socketRead w input = ⟨w, input, []⟩ := by
  rcases h with h | h <;> simp [socketRead, h]

theorem socketRead_state_set (w : WS) (input : List Byte)
    (hst : w.core.wsState = WebSocketState.Open ∨
      w.core.wsState = WebSocketState.Closed ∨ w.core.wsState = WebSocketState.Error) :
    (socketRead w input).ws.core.wsState = WebSocketState.Open ∨
    (socketRead w input).ws.core.wsState = WebSocketState.Closed ∨
    (socketRead w input).ws.core.wsState = WebSocketState.Error := by
  rcases hst with h | h
  · rw [socketRead_open_eq w input h]
    dsimp only
    rcases socketReadOpen_wsState w.core input with h1 | h1 | h1
    · rw [h1, h]; exact Or.inl rfl
    · exact Or.inr (Or.inl h1)
    · exact Or.inr (Or.inr h1)
  · rw [socketRead_terminal w input h]
    exact Or.inr h

theorem socketRead_quiescent (w : WS) (input : List Byte)
    (hst : w.core.wsState = WebSocketState.Open ∨
      w.core.wsState = WebSocketState.Closed ∨ w.core.wsState = WebSocketState.Error) :
    socketRead (socketRead w input).ws (socketRead w input).leftover
      = ⟨(socketRead w input).ws, (socketRead w input).leftover, []⟩ := by
  rcases hst with h | h
  · rw [socketRead_open_eq w input h]
    dsimp only
    rcases socketReadOpen_wsState w.core input with h1 | h1 | h1
    · rw [h] at h1
      have hq := socketReadOpen_quiescent w.core input h h1
      rw [socketRead_open_eq _ _ h1]
      dsimp only
      rw [socketReadOpen_stop _ _ (by rw [hq]), hq]
      simp
    · rw [socketRead_terminal _ _ (Or.inl h1)]
    · rw [socketRead_terminal _ _ (Or.inr h1)]
  · rw [socketRead_terminal w input h]
    dsimp only
    rw [socketRead_terminal w input h]

theorem socketRead_append (w : WS) (b x : List Byte)
    (hst : w.core.wsState = WebSocketState.Open ∨
      w.core.wsState = WebSocketState.Closed ∨ w.core.wsState = WebSocketState.Error) :
    (socketRead w (b ++ x)).ws.core
        = (socketRead (socketRead w b).ws ((socketRead w b).leftover ++ x)).ws.core ∧
    (socketRead w (b ++ x)).ws.buffers.flatten
        = (socketRead (socketRead w b).ws ((socketRead w b).leftover ++ x)).ws.buffers.flatten ∧
    (socketRead w (b ++ x)).ws.bytesInBuffers
        = (socketRead (socketRead w b).ws ((socketRead w b).leftover ++ x)).ws.bytesInBuffers ∧
    (socketRead w (b ++ x)).ws.buffersFirstConsumed
        = (socketRead (socketRead w b).ws ((socketRead w b).leftover ++ x)).ws.buffersFirstConsumed ∧
    (socketRead w (b ++ x)).leftover
        = (socketRead (socketRead w b).ws ((socketRead w b).leftover ++ x)).leftover ∧
    (socketRead w (b ++ x)).written
        = (socketRead w b).written
            ++ (socketRead (socketRead w b).ws ((socketRead w b).leftover ++ x)).written := by
  rcases hst with h | h
  · obtain ⟨g1, g2, g3, g4⟩ := openGuard_append w.core b x
    rw [openGuard_open w.core (b ++ x) h, openGuard_open w.core b h] at g1 g2 g3 g4
    rw [socketRead_open_eq w (b ++ x) h, socketRead_open_eq w b h]
    dsimp only
    rcases socketReadOpen_wsState w.core b with h1 | h1 | h1
    · rw [h] at h1
      rw [openGuard_open _ _ h1] at g1 g2 g3 g4
      rw [socketRead_open_eq _ _ h1]
      dsimp only
      refine ⟨g1, ?_, ?_, rfl, g2, g3⟩
      · simp only [List.flatten_append, g4, List.append_assoc]
      · have hlen := congrArg List.length g4
        simp only [List.length_append, List.length_join] at hlen
        omega
    · rw [openGuard_not_open _ _ (by rw [h1]; simp)] at g1 g2 g3 g4
      rw [socketRead_terminal _ _ (Or.inl h1)]
      dsimp only
      refine ⟨g1, ?_, ?_, rfl, g2, ?_⟩
      · simp only [List.flatten_append, g4]
        simp
      · have hlen := congrArg List.length g4
        simp only [List.length_append, List.length_join, List.flatten_nil,
          List.length_nil, List.map_nil, List.sum_nil] at hlen
        omega
      · simp only [g3, List.append_nil]
    · rw [openGuard_not_open _ _ (by rw [h1]; simp)] at g1 g2 g3 g4
      rw [socketRead_terminal _ _ (Or.inr h1)]
      dsimp only
      refine ⟨g1, ?_, ?_, rfl, g2, ?_⟩
      · simp only [List.flatten_append, g4]
        simp
      · have hlen := congrArg List.length g4
        simp only [List.length_append, List.length_join, List.flatten_nil,
          List.length_nil, List.map_nil, List.sum_nil] at hlen
        omega
      · simp only [g3, List.append_nil]
  · rw [socketRead_terminal w b h]
    dsimp only
    rw [socketRead_terminal w (b ++ x) h]
    simp

theorem feedChunks_eq (chunks : List (List Byte)) :
    ∀ (w : WS) (pending : List Byte),
    (w.core.wsState = WebSocketState.Open ∨
      w.core.wsState = WebSocketState.Closed ∨ w.core.wsState = WebSocketState.Error) →
    socketRead w pending = ⟨w, pending, []⟩ →
    (feedChunks w pending chunks).ws.core
        = (socketRead w (pending ++ chunks.flatten)).ws.core ∧
    (feedChunks w pending chunks).ws.buffers.flatten
        = (socketRead w (pending ++ chunks.flatten)).ws.buffers.flatten ∧
    (feedChunks w pending chunks).ws.bytesInBuffers
        = (socketRead w (pending ++ chunks.flatten)).ws.bytesInBuffers ∧
    (feedChunks w pending chunks).ws.buffersFirstConsumed
        = (socketRead w (pending ++ chunks.flatten)).ws.buffersFirstConsumed ∧
    (feedChunks w pending chunks).leftover
        = (socketRead w (pending ++ chunks.flatten)).leftover ∧
    (feedChunks w pending chunks).written
        = (socketRead w (pending ++ chunks.flatten)).written := by
  induction chunks with
  | nil =>
    intro w pending hst hq
    simp [feedChunks, hq]
  | cons ch rest ih =>
    intro w pending hst hq
    have hassoc : pending ++ (ch :: rest).flatten = (pending ++ ch) ++ rest.flatten := by
      simp
    rw [hassoc]
    obtain ⟨a1, a2, a3, a4, a5, a6⟩ := socketRead_append w (pending ++ ch) rest.flatten hst
    have hst2 := socketRead_state_set w (pending ++ ch) hst
    have hq2 := socketRead_quiescent w (pending ++ ch) hst
    obtain ⟨i1, i2, i3, i4, i5, i6⟩ :=
      ih (socketRead w (pending ++ ch)).ws (socketRead w (pending ++ ch)).leftover hst2 hq2
    refine ⟨?_, ?_, ?_, ?_, ?_, ?_⟩
    · simp only [feedChunks]
      exact i1.trans a1.symm
    · simp only [feedChunks]
      exact i2.trans a2.symm
    · simp only [feedChunks]
      exact i3.trans a3.symm
    · simp only [feedChunks]
      exact i4.trans a4.symm
    · simp only [feedChunks]
      exact i5.trans a5.symm
    · simp only [feedChunks]
      rw [i6, a6]

theorem socketRead_nil (w : WS)
    (hopen : w.core.wsState = WebSocketState.Open)
    (hna : w.core.nextAction = WebSocketNextAction.ReadOpcodeAnd1ByteLength) :
    socketRead w [] = ⟨w, [], []⟩ := by
  have hsus : socketStep w.core [] = ⟨false, w.core, [], [], []⟩ := by
    apply socketStep_suspend
    simp [stepNeeds, hna]
  rw [socketRead_open_eq w [] hopen, socketReadOpen_stop w.core [] (by rw [hsus]), hsus]
  simp

/-- C1: feeding any byte sequence to an Open connection in arbitrary chunks
through successive `socketRead` invocations produces the same decoded bytes
in the output buffer (same contents, same total), the same socket writes and
the same final decode state as feeding all bytes in a single invocation;
moreover a decode step short of bytes consumes nothing and leaves the state
unchanged, so a later invocation resumes at the very same step.  (Proved for
arbitrary input bytes, which subsumes sequences of complete valid frames.) -/
theorem c1_chunked_feeding_equivalence :
    (∀ (w : WS) (chunks : List (List Byte)),
      w.core.wsState = WebSocketState.Open →
      w.core.nextAction = WebSocketNextAction.ReadOpcodeAnd1ByteLength →
      (feedChunks w [] chunks).ws.buffers.flatten
          = (socketRead w chunks.flatten).ws.buffers.flatten ∧
      (feedChunks w [] chunks).ws.bytesInBuffers
          = (socketRead w chunks.flatten).ws.bytesInBuffers ∧
      (feedChunks w [] chunks).ws.core = (socketRead w chunks.flatten).ws.core ∧
      (feedChunks w [] chunks).leftover = (socketRead w chunks.flatten).leftover ∧
      (feedChunks w [] chunks).written = (socketRead w chunks.flatten).written) ∧
    (∀ (c : Core) (input : List Byte), input.length < stepNeeds c →
      socketStep c input = ⟨false, c, input, [], []⟩) := by
  constructor
  · intro w chunks hopen hna
    obtain ⟨e1, e2, e3, e4, e5, e6⟩ :=
      feedChunks_eq chunks w [] (Or.inl hopen) (socketRead_nil w hopen hna)
    rw [List.nil_append] at e1 e2 e3 e4 e5 e6
    exact ⟨e2, e3, e1, e5, e6⟩
  · exact socketStep_suspend

theorem c1_witness :
    (openWS.core.wsState = WebSocketState.Open ∧
      openWS.core.nextAction = WebSocketNextAction.ReadOpcodeAnd1ByteLength ∧
      ([0x81] : List Byte).length < stepNeeds openWS.core) ∧
    ((feedChunks openWS [] helloChunks).ws.buffers.flatten
        = (socketRead openWS helloChunks.flatten).ws.buffers.flatten ∧
      (feedChunks openWS [] helloChunks).ws.bytesInBuffers
          = (socketRead openWS helloChunks.flatten).ws.bytesInBuffers ∧
      (feedChunks openWS [] helloChunks).ws.core
          = (socketRead openWS helloChunks.flatten).ws.core ∧
      (feedChunks openWS [] helloChunks).leftover
          = (socketRead openWS helloChunks.flatten).leftover ∧
      (feedChunks openWS [] helloChunks).written
          = (socketRead openWS helloChunks.flatten).written) ∧
    socketStep openWS.core [0x81] = ⟨false, openWS.core, [0x81], [], []⟩ :=
  ⟨⟨rfl, rfl, by decide⟩,
    c1_chunked_feeding_equivalence.1 openWS helloChunks rfl rfl,
    c1_chunked_feeding_equivalence.2 openWS.core [0x81] (by decide)⟩

/-- C10: the masking transform is an involution: unmasking twice from the
same rolling index restores the data, and each application advances the
rolling mask index by the data length modulo 4. -/
theorem c10_unmask_involution :
    ∀ (m : List Byte) (i : Nat) (d : List Byte), i < 4 →
      (unmask m i (unmask m i d).1).1 = d ∧
      (unmask m i d).2 = (i + d.length) % 4 ∧
      (unmask m i (unmask m i d).1).2 = (i + d.length) % 4 := by
  intro m i d hi
  refine ⟨unmask_unmask m i d, unmask_snd_mod m i d hi, ?_⟩
  rw [unmask_snd_mod m i _ hi, unmask_fst_length]

theorem c10_witness :
    (2 : Nat) < 4 ∧
    ((unmask [1, 2, 3, 4] 2 (unmask [1, 2, 3, 4] 2 [9, 9, 9]).1).1 = [9, 9, 9] ∧
      (unmask [1, 2, 3, 4] 2 [9, 9, 9]).2 = (2 + ([9, 9, 9] : List Byte).length) % 4 ∧
      (unmask [1, 2, 3, 4] 2 (unmask [1, 2, 3, 4] 2 [9, 9, 9]).1).2
        = (2 + ([9, 9, 9] : List Byte).length) % 4) :=
  ⟨by decide, c10_unmask_involution [1, 2, 3, 4] 2 [9, 9, 9] (by decide)⟩

/-- C4 as stated is false at `L = 65536`: that length is not representable in
16 bits, yet the code (whose boundary check is `length <= 65536`) emits the
2-byte-extended encoding, truncated to `126 00 00`, not `127` plus the
big-endian 64-bit value. -/
theorem c4_counterexample :
    ¬(65536 : Nat) < 2 ^ 16 ∧
    writeLength 65536 = [126, 0, 0] ∧
    writeLength 65536 ≠ 127 :: beBytes 8 65536 := by
  refine ⟨by decide, by decide, by decide⟩

/-- C4 (amended): the outgoing length header uses the single byte for
`L ≤ 125`, the 2-byte-extended encoding (big-endian, truncated mod 2^16) for
`125 < L ≤ 65536` — an inclusive bound, one past the largest 16-bit value —
and the 8-byte-extended big-endian encoding for `L > 65536`; in particular
lengths 10, 200 and 70000 select the 1-, 3- and 9-byte headers. -/
theorem c4_writeLength_encoding :
    (∀ L : Nat, L ≤ 125 → writeLength L = [L]) ∧
    (∀ L : Nat, 125 < L → L ≤ 65536 →
      writeLength L = [126, L / 256 % 256, L % 256]) ∧
    (∀ L : Nat, 65536 < L →
      writeLength L
        = [127, L / 256 ^ 7 % 256, L / 256 ^ 6 % 256, L / 256 ^ 5 % 256,
           L / 256 ^ 4 % 256, L / 256 ^ 3 % 256, L / 256 ^ 2 % 256,
           L / 256 % 256, L % 256]) ∧
    writeLength 10 = [10] ∧ (writeLength 10).length = 1 ∧
    writeLength 200 = [126, 0, 200] ∧ (writeLength 200).length = 3 ∧
    writeLength 70000 = [127, 0, 0, 0, 0, 0, 1, 17, 112] ∧
    (writeLength 70000).length = 9 := by
  refine ⟨?_, ?_, ?_, by decide, by decide, by decide, by decide, by decide, by decide⟩
  · intro L h
    simp [writeLength, h]
  · intro L h1 h2
    rw [writeLength, if_neg (by omega), if_pos h2]
    simp [beBytes]
  · intro L h
    rw [writeLength, if_neg (by omega), if_neg (by omega)]
    simp only [beBytes, List.nil_append, List.cons_append, Nat.div_div_eq_div_mul]
    norm_num

theorem c4_witness :
    ((10 : Nat) ≤ 125 ∧ writeLength 10 = [10]) ∧
    ((125 : Nat) < 200 ∧ (200 : Nat) ≤ 65536 ∧
      writeLength 200 = [126, 200 / 256 % 256, 200 % 256]) ∧
    ((65536 : Nat) < 70000 ∧
      writeLength 70000
        = [127, 70000 / 256 ^ 7 % 256, 70000 / 256 ^ 6 % 256, 70000 / 256 ^ 5 % 256,
           70000 / 256 ^ 4 % 256, 70000 / 256 ^ 3 % 256, 70000 / 256 ^ 2 % 256,
           70000 / 256 % 256, 70000 % 256]) :=
  ⟨⟨by decide, c4_writeLength_encoding.1 10 (by decide)⟩,
    ⟨by decide, by decide, c4_writeLength_encoding.2.1 200 (by decide) (by decide)⟩,
    ⟨by decide, c4_writeLength_encoding.2.2.1 70000 (by decide)⟩⟩

/-- C3: decoding a frame header with opcode 8 (Close) in the Open state
writes exactly one close frame back — the two bytes `0x88 0x00` (FIN bit set,
opcode 8, length 0) — moves the state to Closed without touching the output
buffer, consumes only the two header bytes, and every later `socketRead`
invocation on a Closed connection reads and writes nothing. -/
theorem c3_close_frame :
    (∀ (w : WS) (b0 b1 : Byte) (rest : List Byte),
      w.core.wsState = WebSocketState.Open →
      w.core.nextAction = WebSocketNextAction.ReadOpcodeAnd1ByteLength →
      b0 % 16 = 8 →
      socketRead w (b0 :: b1 :: rest)
        = ⟨{ w with core := { w.core with wsState := WebSocketState.Closed } },
           rest, [136, 0]⟩) ∧
    (∀ (w : WS) (input : List Byte), w.core.wsState = WebSocketState.Closed →
      socketRead w input = ⟨w, input, []⟩) := by
  constructor
  · intro w b0 b1 rest hopen hna h8
    have hstep : socketStep w.core (b0 :: b1 :: rest)
        = ⟨false, { w.core with wsState := WebSocketState.Closed }, rest, [136, 0], []⟩ := by
      simp [socketStep, hna, h8]
    rw [socketRead_open_eq w _ hopen,
      socketReadOpen_stop w.core _ (by rw [hstep]), hstep]
    simp
  · intro w input h
    exact socketRead_terminal w input (Or.inl h)

theorem c3_witness :
    (openWS.core.wsState = WebSocketState.Open ∧
      openWS.core.nextAction = WebSocketNextAction.ReadOpcodeAnd1ByteLength ∧
      (136 : Byte) % 16 = 8) ∧
    socketRead openWS [136, 0, 7, 7]
      = ⟨{ openWS with core := { openWS.core with wsState := WebSocketState.Closed } },
         [7, 7], [136, 0]⟩ ∧
    ({ openWS with core := { openWS.core with
        wsState := WebSocketState.Closed } }.core.wsState = WebSocketState.Closed ∧
      socketRead { openWS with core := { openWS.core with
          wsState := WebSocketState.Closed } } [1, 2, 3]
        = ⟨{ openWS with core := { openWS.core with wsState := WebSocketState.Closed } },
           [1, 2, 3], []⟩) :=
  ⟨⟨rfl, rfl, by decide⟩,
    c3_close_frame.1 openWS 136 0 [7, 7] rfl rfl (by decide),
    ⟨rfl, c3_close_frame.2 _ [1, 2, 3] rfl⟩⟩

theorem socketRead_ping_full (w : WS) (input : List Byte)
    (hopen : w.core.wsState = WebSocketState.Open)
    (hna : w.core.nextAction = WebSocketNextAction.ReadPayload)
    (hnp : w.core.nextPayload = WebSocketNextPayload.Ping)
    (hlen : w.core.nextLength = input.length) :
    socketRead w input
      = ⟨{ w with core := { w.core with
            maskIndex := (unmask w.core.mask w.core.maskIndex input).2,
            nextAction := WebSocketNextAction.ReadOpcodeAnd1ByteLength } },
         [],
         pongHeader :: (writeLength input.length
           ++ (unmask w.core.mask w.core.maskIndex input).1)⟩ := by
  have hstep : socketStep w.core input
      = ⟨true,
          { w.core with
              maskIndex := (unmask w.core.mask w.core.maskIndex input).2,
              nextAction := WebSocketNextAction.ReadOpcodeAnd1ByteLength },
          [],
          pongHeader :: (writeLength input.length
            ++ (unmask w.core.mask w.core.maskIndex input).1), []⟩ := by
    simp only [socketStep, hna, hnp, hlen, le_refl, if_pos, List.take_length,
      List.drop_length, unmask_fst_length]
  have hsus : socketStep
      { w.core with
          maskIndex := (unmask w.core.mask w.core.maskIndex input).2,
          nextAction := WebSocketNextAction.ReadOpcodeAnd1ByteLength }
      ([] : List Byte)
      = ⟨false,
          { w.core with
              maskIndex := (unmask w.core.mask w.core.maskIndex input).2,
              nextAction := WebSocketNextAction.ReadOpcodeAnd1ByteLength },
          [], [], []⟩ := by
    apply socketStep_suspend
    simp [stepNeeds]
  rw [socketRead_open_eq w _ hopen, socketReadOpen_go w.core _ (by rw [hstep]), hstep]
  dsimp only
  rw [socketReadOpen_stop _ _ (by rw [hsus]), hsus]
  simp

/-- C6 as stated is false at payload length 65536: with the whole 65536-byte
ping payload available, the code answers with a pong whose length field is
`writeLength 65536` — the truncated 2-byte-extended `126 00 00` — while the
minimal-length encoding of 65536 is the 8-byte-extended form
`127 :: beBytes 8 65536`, so the written pong does not carry the
minimal-length encoding of the payload length. -/
theorem c6_counterexample :
    (socketRead pingWS65536 (List.replicate 65536 0)).written
        = pongHeader :: (writeLength 65536
            ++ (unmask pingWS65536.core.mask pingWS65536.core.maskIndex
                  (List.replicate 65536 0)).1) ∧
    writeLength 65536 = [126, 0, 0] ∧
    minimalLength 65536 = 127 :: beBytes 8 65536 ∧
    writeLength 65536 ≠ minimalLength 65536 := by
  refine ⟨?_, by decide, by decide, by decide⟩
  rw [socketRead_ping_full pingWS65536 (List.replicate 65536 0) rfl rfl rfl
    (by rw [List.length_replicate]; rfl)]
  dsimp only
  rw [List.length_replicate]

/-- C6 (amended): a Ping frame's payload, once fully available, is consumed,
unmasked with the frame's mask, and answered with exactly one Pong frame: the
fixed pong header byte `0x8A`, the code's length encoding `writeLength` of the
payload length — which coincides with the minimal-length encoding at every
length other than 65536, where it is the truncated `126 00 00` instead — then
the unmasked payload; with fewer bytes than the ping payload available
nothing is consumed or written. -/
theorem c6_ping_pong :
    (∀ (w : WS) (input : List Byte),
      w.core.wsState = WebSocketState.Open →
      w.core.nextAction = WebSocketNextAction.ReadPayload →
      w.core.nextPayload = WebSocketNextPayload.Ping →
      w.core.nextLength = input.length →
      socketRead w input
        = ⟨{ w with core := { w.core with
              maskIndex := (unmask w.core.mask w.core.maskIndex input).2,
              nextAction := WebSocketNextAction.ReadOpcodeAnd1ByteLength } },
           [],
           pongHeader :: (writeLength input.length
             ++ (unmask w.core.mask w.core.maskIndex input).1)⟩) ∧
    (∀ (w : WS) (input : List Byte),
      w.core.wsState = WebSocketState.Open →
      w.core.nextAction = WebSocketNextAction.ReadPayload →
      w.core.nextPayload = WebSocketNextPayload.Ping →
      input.length < w.core.nextLength →
      socketRead w input = ⟨w, input, []⟩) ∧
    (∀ L : Nat, L ≠ 65536 → writeLength L = minimalLength L) ∧
    writeLength 65536 ≠ minimalLength 65536 := by
  refine ⟨socketRead_ping_full, ?_, ?_, by decide⟩
  · intro w input hopen hna hnp hlt
    have hstep : socketStep w.core input = ⟨false, w.core, input, [], []⟩ := by
      apply socketStep_suspend
      simp [stepNeeds, hna, hnp]
      omega
    rw [socketRead_open_eq w _ hopen, socketReadOpen_stop w.core _ (by rw [hstep]), hstep]
    simp
  · intro L hne
    simp only [writeLength, minimalLength]
    by_cases h1 : L ≤ 125
    · rw [if_pos h1, if_pos h1]
    · rw [if_neg h1, if_neg h1]
      by_cases h2 : L ≤ 65536
      · rw [if_pos h2, if_pos (by omega)]
      · rw [if_neg h2, if_neg (by omega)]

theorem c6_witness :
    (pingWS.core.wsState = WebSocketState.Open ∧
      pingWS.core.nextAction = WebSocketNextAction.ReadPayload ∧
      pingWS.core.nextPayload = WebSocketNextPayload.Ping ∧
      pingWS.core.nextLength = ([4, 4, 4] : List Byte).length ∧
      ([4] : List Byte).length < pingWS.core.nextLength ∧
      (3 : Nat) ≠ 65536) ∧
    socketRead pingWS [4, 4, 4]
      = ⟨{ pingWS with core := { pingWS.core with
            maskIndex := (unmask pingWS.core.mask pingWS.core.maskIndex [4, 4, 4]).2,
            nextAction := WebSocketNextAction.ReadOpcodeAnd1ByteLength } },
         [],
         pongHeader :: (writeLength ([4, 4, 4] : List Byte).length
           ++ (unmask pingWS.core.mask pingWS.core.maskIndex [4, 4, 4]).1)⟩ ∧
    socketRead pingWS [4] = ⟨pingWS, [4], []⟩ ∧
    writeLength 3 = minimalLength 3 :=
  ⟨⟨rfl, rfl, rfl, rfl, by decide, by decide⟩,
    c6_ping_pong.1 pingWS [4, 4, 4] rfl rfl rfl rfl,
    c6_ping_pong.2.1 pingWS [4] rfl rfl rfl (by decide),
    c6_ping_pong.2.2.1 3 (by decide)⟩

theorem headerLength_error (c : Core) (b1 : Byte) (rest : List Byte)
    (hm : b1 % 256 < 128) :
    headerLength c b1 rest
      = ⟨false, { c with wsState := WebSocketState.Error }, rest, [], []⟩ := by
  rw [headerLength, if_pos hm]

theorem headerLength_wsState (c : Core) (b1 : Byte) (rest : List Byte)
    (hm : ¬b1 % 256 < 128) :
    (headerLength c b1 rest).core.wsState = c.wsState := by
  rw [headerLength, if_neg hm]
  split_ifs <;>
    first
      | rfl
      | (exfalso; simp only [Byte] at *; omega)

/-- C2's universal statement is false on the code: a Close frame is handled
before the mask-bit check, so the frame `88 00` (opcode 8, mask bit unset)
ends in Closed, not Error. -/
theorem c2_counterexample :
    (0 : Byte) % 256 < 128 ∧
    (socketRead openWS [136, 0]).ws.core.wsState = WebSocketState.Closed ∧
    (socketRead openWS [136, 0]).ws.core.wsState ≠ WebSocketState.Error := by
  have hstep : socketStep openWS.core [136, 0]
      = ⟨false, { openWS.core with wsState := WebSocketState.Closed },
         [], [136, 0], []⟩ := by decide
  rw [socketRead_open_eq openWS _ rfl,
    socketReadOpen_stop openWS.core _ (by rw [hstep]), hstep]
  refine ⟨by decide, rfl, by decide⟩

/-- C2 (amended): while Open, the header step enters Error precisely on an
invalid opcode, or on a missing mask bit for a valid non-close opcode (a
close frame ignores the mask bit and closes normally); and every received
non-close frame whose mask bit is unset drives the connection to Error with
the output buffer unchanged, nothing written, and only the two header bytes
consumed. -/
theorem c2_error_conditions :
    (∀ (c : Core) (input : List Byte), c.wsState = WebSocketState.Open →
      ((socketStep c input).core.wsState = WebSocketState.Error ↔
        (c.nextAction = WebSocketNextAction.ReadOpcodeAnd1ByteLength ∧
          ∃ b0 b1 rest, input = b0 :: b1 :: rest ∧
            ((¬b0 % 16 ≤ 2 ∧ b0 % 16 ≠ 8 ∧ b0 % 16 ≠ 9 ∧ b0 % 16 ≠ 10) ∨
              ((b0 % 16 ≤ 2 ∨ b0 % 16 = 9 ∨ b0 % 16 = 10) ∧ b1 % 256 < 128))))) ∧
    (∀ (w : WS) (b0 b1 : Byte) (rest : List Byte),
      w.core.wsState = WebSocketState.Open →
      w.core.nextAction = WebSocketNextAction.ReadOpcodeAnd1ByteLength →
      (b0 % 16 ≤ 2 ∨ b0 % 16 = 9 ∨ b0 % 16 = 10) →
      b1 % 256 < 128 →
      (socketRead w (b0 :: b1 :: rest)).ws.core.wsState = WebSocketState.Error ∧
      (socketRead w (b0 :: b1 :: rest)).ws.buffers = w.buffers ∧
      (socketRead w (b0 :: b1 :: rest)).ws.bytesInBuffers = w.bytesInBuffers ∧
      (socketRead w (b0 :: b1 :: rest)).written = [] ∧
      (socketRead w (b0 :: b1 :: rest)).leftover = rest) := by
  constructor
  · intro c input hopen
    cases hna : c.nextAction
    case Read2ByteLength =>
      rcases input with _ | ⟨a, _ | ⟨b, rest⟩⟩ <;> simp [socketStep, hna, hopen]
    case Read8ByteLength =>
      rcases input with _ | ⟨a1, _ | ⟨a2, _ | ⟨a3, _ | ⟨a4, _ | ⟨a5, _ | ⟨a6, _ | ⟨a7, _ | ⟨a8, rest⟩⟩⟩⟩⟩⟩⟩⟩ <;>
        simp [socketStep, hna, hopen]
    case ReadMask =>
      rcases input with _ | ⟨a1, _ | ⟨a2, _ | ⟨a3, _ | ⟨a4, rest⟩⟩⟩⟩ <;>
        simp [socketStep, hna, hopen]
    case ReadPayload =>
      cases hnp : c.nextPayload <;>
        simp only [socketStep, hna, hnp] <;>
        split_ifs <;>
        simp [hopen, hna]
    case ReadOpcodeAnd1ByteLength =>
      rcases input with _ | ⟨b0, _ | ⟨b1, rest⟩⟩
      · simp [socketStep, hna, hopen]
      · simp [socketStep, hna, hopen]
      · by_cases h1 : b0 % 16 ≤ 2
        · by_cases hm : b1 % 256 < 128
          · apply iff_of_true
            · simp [socketStep, hna, if_pos h1, headerLength_error _ _ _ hm]
            · exact ⟨rfl, b0, b1, rest, rfl, Or.inr ⟨Or.inl h1, hm⟩⟩
          · apply iff_of_false
            · have hws : (socketStep c (b0 :: b1 :: rest)).core.wsState = c.wsState := by
                simp only [socketStep, hna, if_pos h1]
                exact headerLength_wsState _ _ _ hm
              rw [hws, hopen]
              simp
            · rintro ⟨-, a, b, r, heq, hcase⟩
              simp only [List.cons.injEq] at heq
              obtain ⟨rfl, rfl, rfl⟩ := heq
              rcases hcase with ⟨hbad, -⟩ | ⟨-, hmm⟩
              · exact hbad h1
              · exact hm hmm
        · by_cases h8 : b0 % 16 = 8
          · apply iff_of_false
            · simp [socketStep, hna, if_neg h1, h8, hopen]
            · rintro ⟨-, a, b, r, heq, hcase⟩
              simp only [List.cons.injEq] at heq
              obtain ⟨rfl, rfl, rfl⟩ := heq
              rcases hcase with ⟨-, hbad, -, -⟩ | ⟨hval, -⟩
              · exact hbad h8
              · rcases hval with hv | hv | hv <;> (simp only [Byte] at *; omega)
          · by_cases h9 : b0 % 16 = 9
            · by_cases hm : b1 % 256 < 128
              · apply iff_of_true
                · simp [socketStep, hna, if_neg h1, h8, h9,
                    headerLength_error _ _ _ hm]
                · exact ⟨rfl, b0, b1, rest, rfl, Or.inr ⟨Or.inr (Or.inl h9), hm⟩⟩
              · apply iff_of_false
                · have hws : (socketStep c (b0 :: b1 :: rest)).core.wsState
                      = c.wsState := by
                    simp only [socketStep, hna, if_neg h1, if_neg h8, if_pos h9]
                    exact headerLength_wsState _ _ _ hm
                  rw [hws, hopen]
                  simp
                · rintro ⟨-, a, b, r, heq, hcase⟩
                  simp only [List.cons.injEq] at heq
                  obtain ⟨rfl, rfl, rfl⟩ := heq
                  rcases hcase with ⟨-, -, hbad, -⟩ | ⟨-, hmm⟩
                  · exact hbad h9
                  · exact hm hmm
            · by_cases h10 : b0 % 16 = 10
              · by_cases hm : b1 % 256 < 128
                · apply iff_of_true
                  · simp [socketStep, hna, if_neg h1, h8, h9, h10,
                      headerLength_error _ _ _ hm]
                  · exact ⟨rfl, b0, b1, rest, rfl, Or.inr ⟨Or.inr (Or.inr h10), hm⟩⟩
                · apply iff_of_false
                  · have hws : (socketStep c (b0 :: b1 :: rest)).core.wsState
                        = c.wsState := by
                      simp only [socketStep, hna, if_neg h1, if_neg h8, if_neg h9,
                        if_pos h10]
                      exact headerLength_wsState _ _ _ hm
                    rw [hws, hopen]
                    simp
                  · rintro ⟨-, a, b, r, heq, hcase⟩
                    simp only [List.cons.injEq] at heq
                    obtain ⟨rfl, rfl, rfl⟩ := heq
                    rcases hcase with ⟨-, -, -, hbad⟩ | ⟨-, hmm⟩
                    · exact hbad h10
                    · exact hm hmm
              · apply iff_of_true
                · simp [socketStep, hna, if_neg h1, h8, h9, h10]
                · exact ⟨rfl, b0, b1, rest, rfl, Or.inl ⟨h1, h8, h9, h10⟩⟩
  · intro w b0 b1 rest hopen hna hvalid hm
    have hstep : ∃ pay, socketStep w.core (b0 :: b1 :: rest)
        = ⟨false, { w.core with nextPayload := pay, wsState := WebSocketState.Error },
           rest, [], []⟩ := by
      rcases hvalid with h1 | h9 | h10
      · exact ⟨WebSocketNextPayload.Data, by
          simp [socketStep, hna, if_pos h1, headerLength_error _ _ _ hm]⟩
      · refine ⟨WebSocketNextPayload.Ping, ?_⟩
        simp only [socketStep, hna, if_neg (by simp only [Byte] at *; omega : ¬b0 % 16 ≤ 2),
          if_neg (by simp only [Byte] at *; omega : ¬b0 % 16 = 8), if_pos h9]
        rw [headerLength_error _ _ _ hm]
      · refine ⟨WebSocketNextPayload.Pong, ?_⟩
        simp only [socketStep, hna, if_neg (by simp only [Byte] at *; omega : ¬b0 % 16 ≤ 2),
          if_neg (by simp only [Byte] at *; omega : ¬b0 % 16 = 8), if_neg (by simp only [Byte] at *; omega : ¬b0 % 16 = 9),
          if_pos h10]
        rw [headerLength_error _ _ _ hm]
    obtain ⟨pay, hstep⟩ := hstep
    rw [socketRead_open_eq w _ hopen,
      socketReadOpen_stop w.core _ (by rw [hstep]), hstep]
    simp

theorem c2_witness :
    (openWS.core.wsState = WebSocketState.Open ∧
      openWS.core.nextAction = WebSocketNextAction.ReadOpcodeAnd1ByteLength ∧
      ((129 : Byte) % 16 ≤ 2 ∨ (129 : Byte) % 16 = 9 ∨ (129 : Byte) % 16 = 10) ∧
      (5 : Byte) % 256 < 128) ∧
    ((socketStep openWS.core [0x85, 0x05]).core.wsState = WebSocketState.Error ↔
      (openWS.core.nextAction = WebSocketNextAction.ReadOpcodeAnd1ByteLength ∧
        ∃ b0 b1 rest, ([0x85, 0x05] : List Byte) = b0 :: b1 :: rest ∧
          ((¬b0 % 16 ≤ 2 ∧ b0 % 16 ≠ 8 ∧ b0 % 16 ≠ 9 ∧ b0 % 16 ≠ 10) ∨
            ((b0 % 16 ≤ 2 ∨ b0 % 16 = 9 ∨ b0 % 16 = 10) ∧ b1 % 256 < 128)))) ∧
    ((socketRead openWS [129, 5, 7]).ws.core.wsState = WebSocketState.Error ∧
      (socketRead openWS [129, 5, 7]).ws.buffers = openWS.buffers ∧
      (socketRead openWS [129, 5, 7]).ws.bytesInBuffers = openWS.bytesInBuffers ∧
      (socketRead openWS [129, 5, 7]).written = [] ∧
      (socketRead openWS [129, 5, 7]).leftover = [7]) :=
  ⟨⟨rfl, rfl, by decide, by decide⟩,
    c2_error_conditions.1 openWS.core [0x85, 0x05] rfl,
    c2_error_conditions.2 openWS 129 5 [7] rfl rfl (by decide) (by decide)⟩

theorem takeWhile_newline (pre : List Byte) (h : (10 : Byte) ∉ pre) :
    (pre ++ [10]).takeWhile (fun b => !decide (b = 10)) = pre := by
  induction pre with
  | nil => rfl
  | cons a t ih =>
    have ha : ¬a = 10 := fun e => h (by simp [e])
    have ht : (10 : Byte) ∉ t := fun m => h (List.mem_cons_of_mem a m)
    simp only [List.cons_append, List.takeWhile_cons, ha, decide_False, Bool.not_false,
      if_true, ih ht]

theorem dropWhile_newline (pre : List Byte) (h : (10 : Byte) ∉ pre) :
    (pre ++ [10]).dropWhile (fun b => !decide (b = 10)) = [10] := by
  induction pre with
  | nil => rfl
  | cons a t ih =>
    have ha : ¬a = 10 := fun e => h (by simp [e])
    have ht : (10 : Byte) ∉ t := fun m => h (List.mem_cons_of_mem a m)
    simp only [List.cons_append, List.dropWhile_cons, ha, decide_False, Bool.not_false,
      if_true, ih ht]

theorem takeLine_newline (pre : List Byte) (h : (10 : Byte) ∉ pre) :
    takeLine (pre ++ [10]) = (pre ++ [10], []) := by
  simp [takeLine, takeWhile_newline pre h, dropWhile_newline pre h]

theorem hasLine_newline (pre : List Byte) : hasLine (pre ++ [10]) = true := by
  simp [hasLine, List.elem_iff]

theorem socketReadHandshakeF_nil (fuel : Nat) (c : Core) :
    socketReadHandshakeF fuel c [] = (c, [], []) := by
  cases fuel
  · rfl
  · rw [socketReadHandshakeF, if_neg (by decide : ¬hasLine ([] : List Byte) = true)]

theorem socketReadHandshake_nil (c : Core) : socketReadHandshake c [] = (c, [], []) :=
  rfl

/-- Processing one complete `Sec-WebSocket-Key:` line whose raw length passes
the check stores the accept token computed from the trimmed value. -/
theorem socketReadHandshake_keyLine (c : Core) (pre : List Byte)
    (h10 : (10 : Byte) ∉ pre)
    (hsw : startsWithSecKey (pre ++ [10]) = true)
    (hlen : 44 ≤ (pre ++ [10]).length) :
    socketReadHandshake c (pre ++ [10])
      = ({ c with
             webSocketAccept :=
               some (base64 (sha1 (trimBytes ((pre ++ [10]).drop 18) ++ magicSequence))) },
         [], []) := by
  have hl : (pre ++ [10]).length = pre.length + 1 := by
    simp
  rw [socketReadHandshake, hl, socketReadHandshakeF, if_pos (hasLine_newline pre)]
  simp only [takeLine_newline pre h10, hsw, if_true]
  rw [if_neg (by omega)]
  rw [socketReadHandshakeF_nil]

set_option maxRecDepth 10000 in
/-- C5: every processed `Sec-WebSocket-Key:` header line stores the accept
token `base64(SHA1(trimmed_key ++ magicSequence))`; in particular the key
`dGhlIHNhbXBsZSBub25jZQ==` yields `s3pPLMBiTxaQ9kYGzzhZRbK+xOo=`. -/
theorem c5_accept_token :
    (∀ (c : Core) (pre : List Byte),
      (10 : Byte) ∉ pre →
      startsWithSecKey (pre ++ [10]) = true →
      44 ≤ (pre ++ [10]).length →
      (socketReadHandshake c (pre ++ [10])).1.webSocketAccept
        = some (base64 (sha1 (trimBytes ((pre ++ [10]).drop 18) ++ magicSequence)))) ∧
    (socketReadHandshake hsCore sampleKeyLine).1.webSocketAccept
      = some (strBytes "s3pPLMBiTxaQ9kYGzzhZRbK+xOo=") := by
  constructor
  · intro c pre h10 hsw hlen
    rw [socketReadHandshake_keyLine c pre h10 hsw hlen]
  · have hpre : sampleKeyLine = sampleKeyPre ++ [10] := by decide
    rw [hpre, socketReadHandshake_keyLine hsCore sampleKeyPre (by decide) (by decide)
      (by decide)]
    decide

/-- Processing one complete `Sec-WebSocket-Key:` line whose raw length fails
the `restLength < 24 + 2` check enters Error without writing anything. -/
theorem socketReadHandshake_keyLine_short (c : Core) (pre : List Byte)
    (h10 : (10 : Byte) ∉ pre)
    (hsw : startsWithSecKey (pre ++ [10]) = true)
    (hlen : (pre ++ [10]).length < 44) :
    socketReadHandshake c (pre ++ [10])
      = ({ c with wsState := WebSocketState.Error }, [], []) := by
  have hl : (pre ++ [10]).length = pre.length + 1 := by
    simp
  rw [socketReadHandshake, hl, socketReadHandshakeF, if_pos (hasLine_newline pre)]
  simp only [takeLine_newline pre h10, hsw, if_true]
  rw [if_pos (by omega)]

/-- C7 as stated is false on the code: the check is on the raw line length
(`line.length() - 18 < 26`), not on the trimmed value's length, so a key
line whose trimmed value has 30 characters (≠ 24) is accepted and a token
is stored instead of entering Error. -/
theorem c7_counterexample :
    (trimBytes ((longKeyPre ++ [10]).drop 18)).length = 30 ∧
    (30 : Nat) ≠ 24 ∧
    (socketReadHandshake hsCore (longKeyPre ++ [10])).1.wsState ≠ WebSocketState.Error ∧
    (socketReadHandshake hsCore (longKeyPre ++ [10])).1.webSocketAccept ≠ none := by
  have h := socketReadHandshake_keyLine hsCore longKeyPre (by decide) (by decide)
    (by decide)
  rw [h]
  refine ⟨by decide, by decide, by decide, by simp⟩

/-- C7 (amended): for a complete `Sec-WebSocket-Key:` line, the connection
enters Error (writing nothing) precisely when the raw line length is below
18 + 24 + 2 bytes; the trimmed value's length is never itself checked, so a
line long enough stores a token computed from the trimmed value no matter
how many characters that value has. -/
theorem c7_key_length_check :
    ∀ (c : Core) (pre : List Byte),
      (10 : Byte) ∉ pre →
      startsWithSecKey (pre ++ [10]) = true →
      ((pre ++ [10]).length < 44 →
        socketReadHandshake c (pre ++ [10])
          = ({ c with wsState := WebSocketState.Error }, [], [])) ∧
      (44 ≤ (pre ++ [10]).length →
        socketReadHandshake c (pre ++ [10])
          = ({ c with
                 webSocketAccept :=
                   some (base64 (sha1 (trimBytes ((pre ++ [10]).drop 18)
                     ++ magicSequence))) },
             [], [])) := by
  intro c pre h10 hsw
  exact ⟨socketReadHandshake_keyLine_short c pre h10 hsw,
    socketReadHandshake_keyLine c pre h10 hsw⟩

theorem c7_witness :
    ((10 : Byte) ∉ shortKeyPre ∧ startsWithSecKey (shortKeyPre ++ [10]) = true ∧
      (shortKeyPre ++ [10]).length < 44) ∧
    socketReadHandshake hsCore (shortKeyPre ++ [10])
      = ({ hsCore with wsState := WebSocketState.Error }, [], []) ∧
    ((10 : Byte) ∉ longKeyPre ∧ startsWithSecKey (longKeyPre ++ [10]) = true ∧
      44 ≤ (longKeyPre ++ [10]).length) ∧
    socketReadHandshake hsCore (longKeyPre ++ [10])
      = ({ hsCore with
             webSocketAccept :=
               some (base64 (sha1 (trimBytes ((longKeyPre ++ [10]).drop 18)
                 ++ magicSequence))) },
         [], []) :=
  ⟨⟨by decide, by decide, by decide⟩,
    (c7_key_length_check hsCore shortKeyPre (by decide) (by decide)).1 (by decide),
    ⟨by decide, by decide, by decide⟩,
    (c7_key_length_check hsCore longKeyPre (by decide) (by decide)).2 (by decide)⟩

theorem c5_witness :
    ((10 : Byte) ∉ sampleKeyPre ∧
      startsWithSecKey (sampleKeyPre ++ [10]) = true ∧
      44 ≤ (sampleKeyPre ++ [10]).length) ∧
    (socketReadHandshake hsCore (sampleKeyPre ++ [10])).1.webSocketAccept
      = some (base64 (sha1 (trimBytes ((sampleKeyPre ++ [10]).drop 18)
          ++ magicSequence))) :=
  ⟨⟨by decide, by decide, by decide⟩,
    c5_accept_token.1 hsCore sampleKeyPre (by decide) (by decide) (by decide)⟩

theorem socketReadHandshakeF_wsState (fuel : Nat) :
    ∀ (c : Core) (input : List Byte),
      (socketReadHandshakeF fuel c input).1.wsState = c.wsState ∨
      (socketReadHandshakeF fuel c input).1.wsState = WebSocketState.Error ∨
      (socketReadHandshakeF fuel c input).1.wsState = WebSocketState.Open := by
  induction fuel with
  | zero => intro c input; exact Or.inl rfl
  | succ fuel ih =>
    intro c input
    rw [socketReadHandshakeF]
    by_cases h1 : hasLine input = true
    · rw [if_pos h1]
      by_cases h2 : startsWithSecKey (takeLine input).1 = true
      · rw [if_pos h2]
        by_cases h3 : (takeLine input).1.length - 18 < 26
        · rw [if_pos h3]
          exact Or.inr (Or.inl rfl)
        · rw [if_neg h3]
          exact ih _ _
      · rw [if_neg h2]
        by_cases h4 : (takeLine input).1 = [13, 10]
        · rw [if_pos h4]
          cases hacc : c.webSocketAccept
          · exact Or.inr (Or.inl rfl)
          · exact Or.inr (Or.inr rfl)
        · rw [if_neg h4]
          exact ih _ _
    · rw [if_neg h1]
      exact Or.inl rfl

theorem socketReadHandshake_wsState (c : Core) (input : List Byte) :
    (socketReadHandshake c input).1.wsState = c.wsState ∨
    (socketReadHandshake c input).1.wsState = WebSocketState.Error ∨
    (socketReadHandshake c input).1.wsState = WebSocketState.Open :=
  socketReadHandshakeF_wsState input.length c input

theorem readF_core (fuel : Nat) :
    ∀ (w : WS) (maxLen : Nat), (readF fuel w maxLen).1.core = w.core := by
  induction fuel with
  | zero => intro w maxLen; rfl
  | succ fuel ih =>
    intro w maxLen
    rw [readF]
    cases hb : w.buffers
    · rfl
    · dsimp only
      split_ifs
      · exact ih _ _
      · rfl
      · exact ih _ _

theorem socketRead_rank (w : WS) (input : List Byte) :
    stateRank w.core.wsState ≤ stateRank (socketRead w input).ws.core.wsState ∧
    (w.core.wsState = WebSocketState.Closed →
      (socketRead w input).ws.core.wsState = WebSocketState.Closed) ∧
    (w.core.wsState = WebSocketState.Error →
      (socketRead w input).ws.core.wsState = WebSocketState.Error) := by
  cases hws : w.core.wsState
  case Closed =>
    rw [socketRead_terminal w input (Or.inl hws)]
    simp [hws]
  case Error =>
    rw [socketRead_terminal w input (Or.inr hws)]
    simp [hws]
  case Open =>
    rw [socketRead_open_eq w input hws]
    dsimp only
    rcases socketReadOpen_wsState w.core input with h | h | h <;>
      rw [h] <;> simp [hws, stateRank]
  case None =>
    refine ⟨Nat.zero_le _, by simp, by simp⟩
  case Handshake =>
    have key : 1 ≤ stateRank (socketRead w input).ws.core.wsState := by
      by_cases ho : (socketReadHandshake w.core input).1.wsState = WebSocketState.Open
      · have hcoreeq : (socketRead w input).ws.core
            = (socketReadOpen (socketReadHandshake w.core input).1
                (socketReadHandshake w.core input).2.1).core := by
          simp [socketRead, hws, ho]
        rw [hcoreeq]
        rcases socketReadOpen_wsState (socketReadHandshake w.core input).1
            (socketReadHandshake w.core input).2.1 with h2 | h2 | h2 <;>
          rw [h2] <;> (try rw [ho]) <;> simp [stateRank]
      · have hcoreeq : (socketRead w input).ws.core
            = (socketReadHandshake w.core input).1 := by
          simp [socketRead, hws, ho]
        rw [hcoreeq]
        rcases socketReadHandshake_wsState w.core input with h2 | h2 | h2
        · rw [h2, hws]
          exact le_refl 1
        · rw [h2]
          simp [stateRank]
        · exact absurd h2 ho
    refine ⟨key, by simp, by simp⟩

/-- C8: across every public operation (socketRead, write, read) the
connection state only moves forward along
`None → Handshake → Open → {Closed, Error}`: the rank never decreases over
any operation sequence, Closed and Error are preserved exactly, and once
Closed or Error is reached `socketRead` neither consumes nor writes any
byte and leaves the state untouched. -/
theorem c8_state_monotone :
    (∀ (w : WS) (op : WSOp),
      stateRank w.core.wsState ≤ stateRank (runOp w op).core.wsState ∧
      (w.core.wsState = WebSocketState.Closed →
        (runOp w op).core.wsState = WebSocketState.Closed) ∧
      (w.core.wsState = WebSocketState.Error →
        (runOp w op).core.wsState = WebSocketState.Error)) ∧
    (∀ (w : WS) (ops : List WSOp),
      stateRank w.core.wsState ≤ stateRank (runOps w ops).core.wsState ∧
      (w.core.wsState = WebSocketState.Closed →
        (runOps w ops).core.wsState = WebSocketState.Closed) ∧
      (w.core.wsState = WebSocketState.Error →
        (runOps w ops).core.wsState = WebSocketState.Error)) ∧
    (∀ (w : WS) (input : List Byte),
      w.core.wsState = WebSocketState.Closed ∨ w.core.wsState = WebSocketState.Error →
      socketRead w input = ⟨w, input, []⟩) := by
  have hop : ∀ (w : WS) (op : WSOp),
      stateRank w.core.wsState ≤ stateRank (runOp w op).core.wsState ∧
      (w.core.wsState = WebSocketState.Closed →
        (runOp w op).core.wsState = WebSocketState.Closed) ∧
      (w.core.wsState = WebSocketState.Error →
        (runOp w op).core.wsState = WebSocketState.Error) := by
    intro w op
    cases op
    case sockRead input => exact socketRead_rank w input
    case msgWrite qbaMsg => exact ⟨le_refl _, fun h => h, fun h => h⟩
    case bufRead maxLen =>
      have hc : (runOp w (WSOp.bufRead maxLen)).core = w.core :=
        readF_core (w.buffers.length + maxLen) w maxLen
      rw [hc]
      exact ⟨le_refl _, fun h => h, fun h => h⟩
  refine ⟨hop, ?_, socketRead_terminal⟩
  intro w ops
  induction ops generalizing w with
  | nil => exact ⟨le_refl _, fun h => h, fun h => h⟩
  | cons op rest ih =>
    obtain ⟨r1, c1, e1⟩ := hop w op
    obtain ⟨r2, c2, e2⟩ := ih (runOp w op)
    exact ⟨le_trans r1 r2, fun h => c2 (c1 h), fun h => e2 (e1 h)⟩

theorem c8_witness :
    (stateRank WS.init.core.wsState
        ≤ stateRank (runOp WS.init (WSOp.sockRead [1, 2])).core.wsState ∧
      (WS.init.core.wsState = WebSocketState.Closed →
        (runOp WS.init (WSOp.sockRead [1, 2])).core.wsState = WebSocketState.Closed) ∧
      (WS.init.core.wsState = WebSocketState.Error →
        (runOp WS.init (WSOp.sockRead [1, 2])).core.wsState = WebSocketState.Error)) ∧
    (stateRank openWS.core.wsState
        ≤ stateRank (runOps openWS [WSOp.msgWrite [1], WSOp.bufRead 5]).core.wsState) ∧
    (({ openWS with core := { openWS.core with
          wsState := WebSocketState.Error } } : WS).core.wsState = WebSocketState.Error ∧
      socketRead { openWS with core := { openWS.core with
          wsState := WebSocketState.Error } } [9, 9]
        = ⟨{ openWS with core := { openWS.core with wsState := WebSocketState.Error } },
           [9, 9], []⟩) :=
  ⟨c8_state_monotone.1 WS.init (WSOp.sockRead [1, 2]),
    (c8_state_monotone.2.1 openWS [WSOp.msgWrite [1], WSOp.bufRead 5]).1,
    ⟨rfl, c8_state_monotone.2.2 _ [9, 9] (Or.inr rfl)⟩⟩

theorem readF_mono : ∀ (f1 f2 : Nat) (w : WS) (maxLen : Nat),
    w.buffers.length + maxLen ≤ f1 → f1 ≤ f2 →
    readF f1 w maxLen = readF f2 w maxLen := by
  intro f1
  induction f1 with
  | zero =>
    intro f2 w maxLen h1 h2
    have hb : w.buffers = [] := List.length_eq_zero.mp (by omega)
    have hm : maxLen = 0 := by omega
    subst hm
    cases f2
    · rfl
    · simp only [readF, hb]
  | succ f1 ih =>
    intro f2 w maxLen h1 h2
    cases f2 with
    | zero => omega
    | succ f2 =>
      rw [readF, readF]
      cases hb : w.buffers with
      | nil => rfl
      | cons hd t =>
        dsimp only
        split_ifs with hrem hml
        · apply ih
          · dsimp only
            rw [hb] at h1
            simp only [List.length_cons] at h1
            omega
          · omega
        · rfl
        · rw [ih f2 _ _
            (by
              dsimp only
              rw [hb] at h1
              simp only [List.length_cons] at h1 ⊢
              omega)
            (by omega)]

theorem read_buffers_nil (w : WS) (maxLen : Nat) (hb : w.buffers = []) :
    read w maxLen = (w, []) := by
  rw [read]
  simp only [hb, List.length_nil, Nat.zero_add]
  cases maxLen
  · rfl
  · simp only [readF, hb]

theorem read_consumed_head (w : WS) (maxLen : Nat) (hd : List Byte) (t : List (List Byte))
    (hb : w.buffers = hd :: t) (hrem : hd.length - w.buffersFirstConsumed = 0) :
    read w maxLen = read { w with buffers := t, buffersFirstConsumed := 0 } maxLen := by
  rw [read, read, hb]
  simp only [List.length_cons]
  rw [show t.length + 1 + maxLen = (t.length + maxLen) + 1 from by omega, readF, hb]
  dsimp only
  rw [if_pos hrem]

theorem read_maxLen_zero (w : WS) (hd : List Byte) (t : List (List Byte))
    (hb : w.buffers = hd :: t) (hrem : hd.length - w.buffersFirstConsumed ≠ 0) :
    read w 0 = (w, []) := by
  rw [read, hb]
  simp only [List.length_cons, Nat.add_zero]
  rw [show t.length + 1 = t.length + 1 from rfl, readF, hb]
  dsimp only
  rw [if_neg hrem, if_pos rfl]

theorem read_step_eq (w : WS) (maxLen : Nat) (hd : List Byte) (t : List (List Byte))
    (hb : w.buffers = hd :: t) (hrem : hd.length - w.buffersFirstConsumed ≠ 0)
    (hml : maxLen ≠ 0) :
    read w maxLen
      = ((read
            { w with
                buffersFirstConsumed := w.buffersFirstConsumed
                  + min (hd.length - w.buffersFirstConsumed) maxLen,
                bytesInBuffers := w.bytesInBuffers
                  - min (hd.length - w.buffersFirstConsumed) maxLen }
            (maxLen - min (hd.length - w.buffersFirstConsumed) maxLen)).1,
         (hd.drop w.buffersFirstConsumed).take
             (min (hd.length - w.buffersFirstConsumed) maxLen)
           ++ (read
                { w with
                    buffersFirstConsumed := w.buffersFirstConsumed
                      + min (hd.length - w.buffersFirstConsumed) maxLen,
                    bytesInBuffers := w.bytesInBuffers
                      - min (hd.length - w.buffersFirstConsumed) maxLen }
                (maxLen - min (hd.length - w.buffersFirstConsumed) maxLen)).2) := by
  conv_lhs => rw [read]
  rw [hb]
  simp only [List.length_cons]
  rw [show t.length + 1 + maxLen = (t.length + maxLen) + 1 from by omega, readF, hb]
  dsimp only
  rw [if_neg hrem, if_neg hml]
  rw [read]
  rw [← readF_mono
    ((t.length + 1) + (maxLen - min (hd.length - w.buffersFirstConsumed) maxLen))
    (t.length + maxLen) _ _
    (by
      simp only [hb, List.length_cons]
      omega)
    (by omega)]
  rfl

theorem read_add (w : WS) (a b : Nat) :
    read w (a + b)
      = ((read (read w a).1 b).1, (read w a).2 ++ (read (read w a).1 b).2) := by
  have H : ∀ (n : Nat) (w : WS) (a b : Nat), w.buffers.length + a ≤ n →
      read w (a + b)
        = ((read (read w a).1 b).1, (read w a).2 ++ (read (read w a).1 b).2) := by
    intro n
    induction n using Nat.strong_induction_on with
    | _ n ih =>
      intro w a b hle
      cases hb : w.buffers with
      | nil =>
        simp [read_buffers_nil _ _ hb]
      | cons hd t =>
        by_cases hrem : hd.length - w.buffersFirstConsumed = 0
        · rw [read_consumed_head w (a + b) hd t hb hrem,
            read_consumed_head w a hd t hb hrem]
          refine ih (t.length + a) ?_ _ a b ?_
          · rw [hb] at hle
            simp only [List.length_cons] at hle
            omega
          · dsimp only
            exact le_refl _
        · by_cases ha : a = 0
          · subst ha
            rw [read_maxLen_zero w hd t hb hrem]
            simp
          · by_cases hcase : hd.length - w.buffersFirstConsumed ≤ a
            · have hab : a + b ≠ 0 := by omega
              rw [read_step_eq w (a + b) hd t hb hrem hab,
                read_step_eq w a hd t hb hrem ha]
              have e1 : min (hd.length - w.buffersFirstConsumed) (a + b)
                  = hd.length - w.buffersFirstConsumed := by omega
              have e2 : min (hd.length - w.buffersFirstConsumed) a
                  = hd.length - w.buffersFirstConsumed := by omega
              rw [e1, e2]
              have e3 : a + b - (hd.length - w.buffersFirstConsumed)
                  = (a - (hd.length - w.buffersFirstConsumed)) + b := by omega
              rw [e3]
              rw [ih (t.length + 1 + (a - (hd.length - w.buffersFirstConsumed)))
                (by
                  rw [hb] at hle
                  simp only [List.length_cons] at hle
                  omega)
                _ (a - (hd.length - w.buffersFirstConsumed)) b
                (by
                  dsimp only
                  rw [hb]
                  simp only [List.length_cons]
                  omega)]
              simp [List.append_assoc]
            · have hrem2 : hd.length - (w.buffersFirstConsumed + a) ≠ 0 := by omega
              have e2 : min (hd.length - w.buffersFirstConsumed) a = a := by omega
              rw [read_step_eq w a hd t hb hrem ha, e2, Nat.sub_self]
              rw [read_maxLen_zero
                { w with
                    buffersFirstConsumed := w.buffersFirstConsumed + a,
                    bytesInBuffers := w.bytesInBuffers - a }
                hd t hb hrem2]
              dsimp only
              by_cases hbz : b = 0
              · subst hbz
                rw [Nat.add_zero]
                rw [read_step_eq w a hd t hb hrem ha, e2, Nat.sub_self]
                rw [read_maxLen_zero
                  { w with
                      buffersFirstConsumed := w.buffersFirstConsumed + a,
                      bytesInBuffers := w.bytesInBuffers - a }
                  hd t hb hrem2]
                simp
              · rw [read_step_eq w (a + b) hd t hb hrem (by omega)]
                have e4 : min (hd.length - w.buffersFirstConsumed) (a + b)
                    = a + min (hd.length - (w.buffersFirstConsumed + a)) b := by omega
                rw [e4]
                rw [read_step_eq
                  { w with
                      buffersFirstConsumed := w.buffersFirstConsumed + a,
                      bytesInBuffers := w.bytesInBuffers - a }
                  b hd t hb hrem2 hbz]
                dsimp only
                have hof : w.buffersFirstConsumed
                      + (a + min (hd.length - (w.buffersFirstConsumed + a)) b)
                    = (w.buffersFirstConsumed + a)
                      + min (hd.length - (w.buffersFirstConsumed + a)) b := by omega
                have hbi : w.bytesInBuffers
                      - (a + min (hd.length - (w.buffersFirstConsumed + a)) b)
                    = (w.bytesInBuffers - a)
                      - min (hd.length - (w.buffersFirstConsumed + a)) b := by omega
                have hml : a + b - (a + min (hd.length - (w.buffersFirstConsumed + a)) b)
                    = b - min (hd.length - (w.buffersFirstConsumed + a)) b := by omega
                rw [hof, hbi, hml]
                have hchunk : (hd.drop w.buffersFirstConsumed).take
                      (a + min (hd.length - (w.buffersFirstConsumed + a)) b)
                    = (hd.drop w.buffersFirstConsumed).take a
                      ++ (hd.drop (w.buffersFirstConsumed + a)).take
                          (min (hd.length - (w.buffersFirstConsumed + a)) b) := by
                  rw [List.take_add]
                  congr 1
                  rw [List.drop_drop, Nat.add_comm]
                rw [hchunk]
                simp [List.append_assoc]
  exact H (w.buffers.length + a) w a b le_rfl

theorem unreadBytes_nil (w : WS) (hb : w.buffers = []) : unreadBytes w = [] := by
  unfold unreadBytes
  rw [hb]

theorem unreadBytes_cons (w : WS) (hd : List Byte) (t : List (List Byte))
    (hb : w.buffers = hd :: t) :
    unreadBytes w = hd.drop w.buffersFirstConsumed ++ t.flatten := by
  unfold unreadBytes
  rw [hb]

theorem read_zero_snd (w : WS) : (read w 0).2 = [] := by
  have H : ∀ (n : Nat) (w : WS), w.buffers.length ≤ n → (read w 0).2 = [] := by
    intro n
    induction n with
    | zero =>
      intro w h
      rw [read_buffers_nil _ _ (List.eq_nil_of_length_eq_zero (by omega))]
    | succ k ih =>
      intro w h
      cases hb : w.buffers with
      | nil => rw [read_buffers_nil _ _ hb]
      | cons hd t =>
        by_cases hrem : hd.length - w.buffersFirstConsumed = 0
        · rw [read_consumed_head w 0 hd t hb hrem]
          refine ih _ ?_
          dsimp only
          rw [hb] at h
          simp only [List.length_cons] at h
          omega
        · rw [read_maxLen_zero w hd t hb hrem]
  exact H w.buffers.length w le_rfl

theorem readSeq_flatten (w : WS) (lens : List Nat) :
    ((readSeq w lens).2).flatten = (read w lens.sum).2 := by
  induction lens generalizing w with
  | nil => simp [readSeq, read_zero_snd]
  | cons n rest ih =>
    simp only [readSeq, List.flatten_cons, List.sum_cons]
    rw [ih, read_add w n rest.sum]

theorem read_spec (w : WS) (maxLen : Nat) (hinv : BufInv w) :
    (read w maxLen).2 = (unreadBytes w).take maxLen ∧
    unreadBytes (read w maxLen).1 = (unreadBytes w).drop maxLen ∧
    BufInv (read w maxLen).1 := by
  have H : ∀ (n : Nat) (w : WS) (maxLen : Nat), w.buffers.length + maxLen ≤ n →
      BufInv w →
      (read w maxLen).2 = (unreadBytes w).take maxLen ∧
      unreadBytes (read w maxLen).1 = (unreadBytes w).drop maxLen ∧
      BufInv (read w maxLen).1 := by
    intro n
    induction n using Nat.strong_induction_on with
    | _ n ih =>
      intro w maxLen hle hinv
      cases hb : w.buffers with
      | nil =>
        rw [read_buffers_nil _ _ hb, unreadBytes_nil w hb]
        exact ⟨by simp, by simp [unreadBytes_nil w hb], hinv⟩
      | cons hd t =>
        by_cases hrem : hd.length - w.buffersFirstConsumed = 0
        · have hoffle : hd.length ≤ w.buffersFirstConsumed := by omega
          have hdrop : hd.drop w.buffersFirstConsumed = [] :=
            List.drop_eq_nil_of_le hoffle
          rw [read_consumed_head w maxLen hd t hb hrem]
          have hun : unreadBytes w
              = unreadBytes { w with buffers := t, buffersFirstConsumed := 0 } := by
            rw [unreadBytes_cons w hd t hb, hdrop, List.nil_append]
            cases t with
            | nil => simp [unreadBytes]
            | cons h2 t2 => simp [unreadBytes]
          have hinv' : BufInv { w with buffers := t, buffersFirstConsumed := 0 } := by
            constructor
            · show w.bytesInBuffers = _
              rw [← hun]
              exact hinv.1
            · exact Nat.zero_le _
          rw [hun]
          refine ih (t.length + maxLen) ?_ _ maxLen ?_ hinv'
          · rw [hb] at hle
            simp only [List.length_cons] at hle
            omega
          · dsimp only
            exact le_refl _
        · by_cases hml : maxLen = 0
          · subst hml
            rw [read_maxLen_zero w hd t hb hrem]
            exact ⟨by simp, by simp, hinv⟩
          · have hoffle : w.buffersFirstConsumed ≤ hd.length := by
              have h2 := hinv.2
              rw [hb] at h2
              simpa using h2
            have hbib : w.bytesInBuffers
                = (hd.length - w.buffersFirstConsumed) + t.flatten.length := by
              have h1 := hinv.1
              rw [unreadBytes_cons w hd t hb] at h1
              simpa [List.length_append] using h1
            rw [read_step_eq w maxLen hd t hb hrem hml]
            dsimp only
            have hinv' : BufInv
                { w with
                    buffersFirstConsumed := w.buffersFirstConsumed
                      + min (hd.length - w.buffersFirstConsumed) maxLen,
                    bytesInBuffers := w.bytesInBuffers
                      - min (hd.length - w.buffersFirstConsumed) maxLen } := by
              constructor
              · rw [unreadBytes_cons
                  { w with
                      buffersFirstConsumed := w.buffersFirstConsumed
                        + min (hd.length - w.buffersFirstConsumed) maxLen,
                      bytesInBuffers := w.bytesInBuffers
                        - min (hd.length - w.buffersFirstConsumed) maxLen }
                  hd t hb]
                dsimp only
                simp only [List.length_append, List.length_drop]
                omega
              · dsimp only
                rw [hb]
                simp only [List.headD_cons]
                omega
            obtain ⟨ih1, ih2, ih3⟩ := ih
              (t.length + 1
                + (maxLen - min (hd.length - w.buffersFirstConsumed) maxLen))
              (by
                rw [hb] at hle
                simp only [List.length_cons] at hle
                omega)
              _ (maxLen - min (hd.length - w.buffersFirstConsumed) maxLen)
              (by
                dsimp only
                rw [hb]
                simp only [List.length_cons]
                omega)
              hinv'
            rw [unreadBytes_cons
              { w with
                  buffersFirstConsumed := w.buffersFirstConsumed
                    + min (hd.length - w.buffersFirstConsumed) maxLen,
                  bytesInBuffers := w.bytesInBuffers
                    - min (hd.length - w.buffersFirstConsumed) maxLen }
              hd t hb] at ih1 ih2
            dsimp only at ih1 ih2
            have hdd : hd.drop (w.buffersFirstConsumed
                  + min (hd.length - w.buffersFirstConsumed) maxLen)
                = (hd.drop w.buffersFirstConsumed).drop
                    (min (hd.length - w.buffersFirstConsumed) maxLen) := by
              rw [List.drop_drop, Nat.add_comm]
            rw [hdd] at ih1 ih2
            rw [unreadBytes_cons w hd t hb]
            refine ⟨?_, ?_, ih3⟩
            · rw [ih1]
              rw [List.take_append_eq_append_take, List.take_append_eq_append_take,
                ← List.append_assoc, ← List.take_add]
              congr 1
              · congr 1
                omega
              · congr 1
                simp only [List.length_drop]
                omega
            · rw [ih2]
              rw [List.drop_append_eq_append_drop, List.drop_append_eq_append_drop,
                List.drop_drop]
              congr 1
              · congr 1
                omega
              · congr 1
                simp only [List.length_drop]
                omega
  exact H (w.buffers.length + maxLen) w maxLen le_rfl hinv

/-- C9: OutputBuffer reads compose. Splitting a read of `a + b` bytes into a
read of `a` then a read of `b` yields the same final state and the
concatenation of the two results; any sequence of partial reads (for example
one byte at a time) concatenates to the single read of the total length; and
under the output-buffer invariant every `read` call returns exactly
`min maxLen bytesAvailable` bytes — up to `maxLen`, fewer only when
insufficient data are buffered, never an error — decrements the available-byte
total by exactly the number of bytes returned, and preserves the invariant
(so the `QByteArray` overload pads nothing and returns the same bytes). -/
theorem c9_output_buffer_reads :
    (∀ (w : WS) (a b : Nat),
        read w (a + b)
          = ((read (read w a).1 b).1,
             (read w a).2 ++ (read (read w a).1 b).2)) ∧
    (∀ (w : WS) (lens : List Nat),
        ((readSeq w lens).2).flatten = (read w lens.sum).2) ∧
    (∀ (w : WS) (maxLen : Nat), BufInv w →
        (read w maxLen).2.length = min maxLen (bytesAvailable w) ∧
        bytesAvailable (read w maxLen).1
          = bytesAvailable w - (read w maxLen).2.length ∧
        BufInv (read w maxLen).1) ∧
    (∀ (w : WS) (maxLen : Nat), BufInv w →
        (readByteArray w maxLen).2 = (read w maxLen).2) := by
  have core3 : ∀ (w : WS) (maxLen : Nat), BufInv w →
      (read w maxLen).2.length = min maxLen (bytesAvailable w) ∧
      bytesAvailable (read w maxLen).1
        = bytesAvailable w - (read w maxLen).2.length ∧
      BufInv (read w maxLen).1 := by
    intro w maxLen hinv
    obtain ⟨h1, h2, h3⟩ := read_spec w maxLen hinv
    have hlen : (read w maxLen).2.length = min maxLen (bytesAvailable w) := by
      rw [h1, List.length_take, bytesAvailable, hinv.1]
    refine ⟨hlen, ?_, h3⟩
    have hb2 := h3.1
    rw [h2, List.length_drop] at hb2
    have hb1 := hinv.1
    show (read w maxLen).1.bytesInBuffers = w.bytesInBuffers - (read w maxLen).2.length
    rw [hb2, hlen]
    simp only [bytesAvailable]
    omega
  refine ⟨read_add, readSeq_flatten, core3, ?_⟩
  intro w maxLen hinv
  simp only [readByteArray]
  obtain ⟨g1, _, _⟩ := read_spec w (min maxLen w.bytesInBuffers) hinv
  obtain ⟨f1, _, _⟩ := read_spec w maxLen hinv
  have hulen : (unreadBytes w).length = w.bytesInBuffers := hinv.1.symm
  have hglen : (read w (min maxLen w.bytesInBuffers)).2.length
      = min maxLen w.bytesInBuffers := by
    rw [g1, List.length_take, hulen]
    omega
  rw [hglen, Nat.sub_self, List.replicate_zero, List.append_nil, g1, f1]
  rcases Nat.le_total maxLen w.bytesInBuffers with hc | hc
  · rw [Nat.min_eq_left hc]
  · rw [Nat.min_eq_right hc, List.take_of_length_le (by omega),
      List.take_of_length_le (by omega)]

/-- Witness for C9 at a concrete buffered connection: the invariant holds for
`bufWS` and a four-byte read returns four of the five buffered bytes. -/
theorem c9_witness :
    BufInv bufWS ∧
    (read bufWS 4).2.length = min 4 (bytesAvailable bufWS) ∧
    bytesAvailable (read bufWS 4).1
      = bytesAvailable bufWS - (read bufWS 4).2.length ∧
    BufInv (read bufWS 4).1 ∧
    (readByteArray bufWS 4).2 = (read bufWS 4).2 := by
  have hinv : BufInv bufWS := ⟨by decide, by decide⟩
  obtain ⟨w1, w2, w3⟩ := c9_output_buffer_reads.2.2.1 bufWS 4 hinv
  exact ⟨hinv, w1, w2, w3, c9_output_buffer_reads.2.2.2 bufWS 4 hinv⟩

end WebSocketSpec
